import Mathlib

/-!
Verification of the arithmetic-semantics and built-in-operation encoder of
the Solidity-to-Boogie translator (`libsolidity/ast/ASTBoogieUtils.cpp`).

The Boogie expression / statement language and the translation context
(identifiers for `this`, `msg.sender`, `msg.value`, the balance map, the
diagnostics sink, and the per-run encoding configuration) live outside the
translated file; they are modelled from the spec (sections 3, 4.5 and 6).
Everything else is a direct shallow embedding of the C++ source.
-/

namespace ASTBoogieUtils

/-! ### The Boogie expression language (modelled from the spec, section 3) -/

/-- Modelled from the spec: the IVR expression-node variants used by the
encoder (integer/bool/bit-vector literals, identifiers, arithmetic,
comparisons, conditionals, map select/update, bit-vector primitives and
tuples).  Bit-vector primitives are kept symbolic (constructor name plus
bit width), exactly as the translator emits uninterpreted function
applications for them. -/
inductive Expr where
  | lit (n : Int)
  | litb (b : Bool)
  | id (n : String)
  | plus (a b : Expr)
  | minus (a b : Expr)
  | times (a b : Expr)
  | intdiv (a b : Expr)
  | mod (a b : Expr)
  | neg (a : Expr)
  | lt (a b : Expr)
  | gt (a b : Expr)
  | lte (a b : Expr)
  | gte (a b : Expr)
  | eq (a b : Expr)
  | and_ (a b : Expr)
  | cond (c t e : Expr)
  | arrsel (base idx : Expr)
  | arrupd (base idx v : Expr)
  | bvlit (n : Int) (bits : Nat)
  | bvbin (name : String) (bits : Nat) (a b : Expr)
  | bvun (name : String) (bits : Nat) (a : Expr)
  | bvext (name : String) (a : Expr) (fromBits toBits : Nat)
  | tuple (elems : List (Option Expr))
deriving Repr

/-- Modelled from the spec: values of the IVR expression language.  Map
values are total functions from integer keys (addresses are encoded as
integers). -/
inductive Val where
  | int (n : Int)
  | bool (b : Bool)
  | arr (f : Int → Val)

/-- An environment assigns a value to every identifier. -/
abbrev Env := String → Val

/-- Modelled from the spec: evaluation of IVR expressions.  Bit-vector
primitives and tuples are left uninterpreted (no claim evaluates them), so
evaluation returns `none` on them, as it does on ill-typed applications. -/
def eval : Expr → Env → Option Val
  | .lit n, _ => some (.int n)
  | .litb b, _ => some (.bool b)
  | .id n, env => some (env n)
  | .plus a b, env =>
    match eval a env, eval b env with
    | some (.int x), some (.int y) => some (.int (x + y))
    | _, _ => none
  | .minus a b, env =>
    match eval a env, eval b env with
    | some (.int x), some (.int y) => some (.int (x - y))
    | _, _ => none
  | .times a b, env =>
    match eval a env, eval b env with
    | some (.int x), some (.int y) => some (.int (x * y))
    | _, _ => none
  | .intdiv a b, env =>
    match eval a env, eval b env with
    | some (.int x), some (.int y) => some (.int (x / y))
    | _, _ => none
  | .mod a b, env =>
    match eval a env, eval b env with
    | some (.int x), some (.int y) => some (.int (x % y))
    | _, _ => none
  | .neg a, env =>
    match eval a env with
    | some (.int x) => some (.int (-x))
    | _ => none
  | .lt a b, env =>
    match eval a env, eval b env with
    | some (.int x), some (.int y) => some (.bool (decide (x < y)))
    | _, _ => none
  | .gt a b, env =>
    match eval a env, eval b env with
    | some (.int x), some (.int y) => some (.bool (decide (x > y)))
    | _, _ => none
  | .lte a b, env =>
    match eval a env, eval b env with
    | some (.int x), some (.int y) => some (.bool (decide (x ≤ y)))
    | _, _ => none
  | .gte a b, env =>
    match eval a env, eval b env with
    | some (.int x), some (.int y) => some (.bool (decide (x ≥ y)))
    | _, _ => none
  | .eq a b, env =>
    match eval a env, eval b env with
    | some (.int x), some (.int y) => some (.bool (decide (x = y)))
    | _, _ => none
  | .and_ a b, env =>
    match eval a env, eval b env with
    | some (.bool x), some (.bool y) => some (.bool (x && y))
    | _, _ => none
  | .cond c t e, env =>
    match eval c env with
    | some (.bool true) => eval t env
    | some (.bool false) => eval e env
    | _ => none
  | .arrsel base idx, env =>
    match eval base env, eval idx env with
    | some (.arr f), some (.int i) => some (f i)
    | _, _ => none
  | .arrupd base idx v, env =>
    match eval base env, eval idx env, eval v env with
    | some (.arr f), some (.int i), some w =>
      some (.arr (fun j => if j = i then w else f j))
    | _, _, _ => none
  | .bvlit _ _, _ => none
  | .bvbin _ _ _ _, _ => none
  | .bvun _ _ _, _ => none
  | .bvext _ _ _ _, _ => none
  | .tuple _, _ => none

/-! ### Operator tokens and the encoding configuration -/

/-- The operator tokens dispatched by the arithmetic encoder
(`langutil::Token`), restricted to the vocabulary the encoder inspects. -/
inductive Tok where
  | Add | AssignAdd | Sub | AssignSub | Mul | AssignMul
  | Div | AssignDiv | Mod | AssignMod
  | LessThan | GreaterThan | LessThanOrEqual | GreaterThanOrEqual
  | Exp
  | BitAnd | AssignBitAnd | BitOr | AssignBitOr | BitXor | AssignBitXor
  | SAR | AssignSar | SHL | AssignShl
  | BitNot | Not
deriving DecidableEq, Repr

/-- Printable operator names, standing in for `TokenTraits::toString`. -/
def tokStr : Tok → String
  | .Add => "+" | .AssignAdd => "+="
  | .Sub => "-" | .AssignSub => "-="
  | .Mul => "*" | .AssignMul => "*="
  | .Div => "/" | .AssignDiv => "/="
  | .Mod => "%" | .AssignMod => "%="
  | .LessThan => "<" | .GreaterThan => ">"
  | .LessThanOrEqual => "<=" | .GreaterThanOrEqual => ">="
  | .Exp => "**"
  | .BitAnd => "&" | .AssignBitAnd => "&="
  | .BitOr => "|" | .AssignBitOr => "|="
  | .BitXor => "^" | .AssignBitXor => "^="
  | .SAR => ">>" | .AssignSar => ">>="
  | .SHL => "<<" | .AssignShl => "<<="
  | .BitNot => "~" | .Not => "!"

/-- The three arithmetic encodings (`BoogieContext::Encoding`). -/
inductive Encoding where
  | INT | BV | MOD
deriving DecidableEq, Repr

/-- Result of the arithmetic encoder: the produced expression, the optional
correctness condition, and the list of diagnostics appended to the error
sink of the context during the call (modelled from the spec: the sink is an
append-only side channel). -/
structure ExprWithCC where
  expr : Expr
  cc : Option Expr := none
  errs : List String := []
deriving Repr

/-- The sentinel identifier used for unsupported constructs (`ERR_EXPR`). -/
def ERR_EXPR : String := "__ERROR"

/-- The integer-literal downcast `dynamic_pointer_cast<IntLit>`: the
literal value, or `none` when the expression is not an integer literal. -/
def asIntLit : Expr → Option Int
  | .lit n => some n
  | _ => none

/-- The bit-vector-literal downcast `dynamic_pointer_cast<BvLit>`: the
literal value, or `none` when the expression is not a bit-vector
literal. -/
def asBvLit : Expr → Option Int
  | .bvlit n _ => some n
  | _ => none

/-- Modelled from the spec: `BoogieContext::intLit` materializes an integer
as a literal of the encoding in use - a bit-vector literal in the BV
encoding and a plain integer literal otherwise. -/
def intLitCtx (enc : Encoding) (v : Int) (bits : Nat) : Expr :=
  if enc = .BV then .bvlit v bits else .lit v

/-- Shallow embedding of `ASTBoogieUtils::encodeArithBinaryOp`.  Machine
integers are `Int` with explicit wrap arithmetic; `%` of the C++ big
integers is `Int.tmod` (truncated, sign of the dividend);
`convert_to<unsigned>` of a non-negative big integer is `Int.toNat`. -/
def encodeArithBinaryOp (enc : Encoding) (op : Tok) (lhs rhs : Expr)
    (bits : Nat) (sgn : Bool) : ExprWithCC :=
  match enc with
  | .INT =>
    match op with
    | .Add | .AssignAdd => { expr := .plus lhs rhs }
    | .Sub | .AssignSub => { expr := .minus lhs rhs }
    | .Mul | .AssignMul => { expr := .times lhs rhs }
    | .Div | .AssignDiv => { expr := .intdiv lhs rhs }
    | .Mod | .AssignMod => { expr := .mod lhs rhs }
    | .LessThan => { expr := .lt lhs rhs }
    | .GreaterThan => { expr := .gt lhs rhs }
    | .LessThanOrEqual => { expr := .lte lhs rhs }
    | .GreaterThanOrEqual => { expr := .gte lhs rhs }
    | .Exp =>
      match asIntLit lhs, asIntLit rhs with
      | some a, some b => { expr := .lit (a ^ b.toNat) }
      | _, _ =>
        { expr := .id ERR_EXPR
          errs := ["Exponentiation is not supported in int encoding"] }
    | _ =>
      { expr := .id ERR_EXPR
        errs := ["Unsupported binary operator in int encoding " ++ tokStr op] }
  | .BV =>
    match op with
    | .Add | .AssignAdd => { expr := .bvbin "add" bits lhs rhs }
    | .Sub | .AssignSub => { expr := .bvbin "sub" bits lhs rhs }
    | .Mul | .AssignMul => { expr := .bvbin "mul" bits lhs rhs }
    | .Div | .AssignDiv =>
      if sgn then { expr := .bvbin "sdiv" bits lhs rhs }
      else { expr := .bvbin "udiv" bits lhs rhs }
    | .BitAnd | .AssignBitAnd => { expr := .bvbin "and" bits lhs rhs }
    | .BitOr | .AssignBitOr => { expr := .bvbin "or" bits lhs rhs }
    | .BitXor | .AssignBitXor => { expr := .bvbin "xor" bits lhs rhs }
    | .SAR | .AssignSar =>
      if sgn then { expr := .bvbin "ashr" bits lhs rhs }
      else { expr := .bvbin "lshr" bits lhs rhs }
    | .SHL | .AssignShl => { expr := .bvbin "shl" bits lhs rhs }
    | .LessThan =>
      if sgn then { expr := .bvbin "slt" bits lhs rhs }
      else { expr := .bvbin "ult" bits lhs rhs }
    | .GreaterThan =>
      if sgn then { expr := .bvbin "sgt" bits lhs rhs }
      else { expr := .bvbin "ugt" bits lhs rhs }
    | .LessThanOrEqual =>
      if sgn then { expr := .bvbin "sle" bits lhs rhs }
      else { expr := .bvbin "ule" bits lhs rhs }
    | .GreaterThanOrEqual =>
      if sgn then { expr := .bvbin "sge" bits lhs rhs }
      else { expr := .bvbin "uge" bits lhs rhs }
    | .Exp =>
      match asBvLit lhs, asBvLit rhs with
      | some a, some b =>
        { expr := intLitCtx .BV ((a ^ b.toNat).tmod (2 ^ bits)) bits }
      | _, _ =>
        { expr := .id ERR_EXPR
          errs := ["Exponentiation is not supported in bv encoding"] }
    | _ =>
      { expr := .id ERR_EXPR
        errs := ["Unsupported binary operator in bv encoding " ++ tokStr op] }
  | .MOD =>
    let modulo : Expr := .lit (2 ^ bits)
    let largestSigned : Expr := .lit (2 ^ (bits - 1) - 1)
    let smallestSigned : Expr := .lit (-(2 ^ (bits - 1)))
    match op with
    | .Add | .AssignAdd =>
      let sum := Expr.plus lhs rhs
      let result :=
        if sgn then
          Expr.cond (.gt sum largestSigned)
            (.minus sum modulo)
            (.cond (.lt sum smallestSigned) (.plus sum modulo) sum)
        else
          Expr.cond (.gte sum modulo) (.minus sum modulo) sum
      { expr := result, cc := some (.eq sum result) }
    | .Sub | .AssignSub =>
      let diff := Expr.minus lhs rhs
      let result :=
        if sgn then
          Expr.cond (.gt diff largestSigned)
            (.minus diff modulo)
            (.cond (.lt diff smallestSigned) (.plus diff modulo) diff)
        else
          Expr.cond (.gte lhs rhs) diff (.plus diff modulo)
      { expr := result, cc := some (.eq diff result) }
    | .Mul | .AssignMul =>
      let prod := Expr.times lhs rhs
      let result :=
        if sgn then
          let lhs1 := Expr.cond (.gte lhs (.lit 0)) lhs (.plus modulo lhs)
          let rhs1 := Expr.cond (.gte rhs (.lit 0)) rhs (.plus modulo rhs)
          let prod2 := Expr.mod (.times lhs1 rhs1) modulo
          Expr.cond (.gt prod2 largestSigned) (.minus prod2 modulo) prod2
        else
          Expr.cond (.gte prod modulo) (.mod prod modulo) prod
      { expr := result, cc := some (.eq prod result) }
    | .Div | .AssignDiv =>
      let div := Expr.intdiv lhs rhs
      let result :=
        if sgn then
          Expr.cond (.gt div largestSigned)
            (.minus div modulo)
            (.cond (.lt div smallestSigned) (.plus div modulo) div)
        else div
      { expr := result, cc := some (.eq div result) }
    | .LessThan => { expr := .lt lhs rhs }
    | .GreaterThan => { expr := .gt lhs rhs }
    | .LessThanOrEqual => { expr := .lte lhs rhs }
    | .GreaterThanOrEqual => { expr := .gte lhs rhs }
    | .Exp =>
      match asIntLit lhs, asIntLit rhs with
      | some a, some b =>
        let power := a ^ b.toNat
        let result := intLitCtx .MOD (power.tmod (2 ^ (if sgn then bits - 1 else bits))) bits
        { expr := result, cc := some (.eq (intLitCtx .MOD power bits) result) }
      | _, _ =>
        { expr := .id ERR_EXPR
          errs := ["Exponentiation is not supported in mod encoding"] }
    | _ =>
      { expr := .id ERR_EXPR
        errs := ["Unsupported binary operator in mod encoding " ++ tokStr op] }

/-- Shallow embedding of `ASTBoogieUtils::encodeArithUnaryOp`. -/
def encodeArithUnaryOp (enc : Encoding) (op : Tok) (subExpr : Expr)
    (bits : Nat) (sgn : Bool) : ExprWithCC :=
  match enc with
  | .INT =>
    match op with
    | .Sub => { expr := .neg subExpr }
    | _ =>
      { expr := .id ERR_EXPR
        errs := ["Unsupported unary operator in int encoding " ++ tokStr op] }
  | .BV =>
    match op with
    | .Sub => { expr := .bvun "neg" bits subExpr }
    | .BitNot => { expr := .bvun "not" bits subExpr }
    | _ =>
      { expr := .id ERR_EXPR
        errs := ["Unsupported unary operator in bv encoding " ++ tokStr op] }
  | .MOD =>
    match op with
    | .Sub =>
      let sub := Expr.neg subExpr
      let result :=
        if sgn then
          let smallestSigned : Expr := .lit (-(2 ^ (bits - 1)))
          Expr.cond (.eq subExpr smallestSigned) smallestSigned sub
        else
          let modulo : Expr := .lit (2 ^ bits)
          Expr.cond (.eq subExpr (.lit 0)) (.lit 0) (.minus modulo subExpr)
      { expr := result, cc := some (.eq sub result) }
    | _ =>
      { expr := .id ERR_EXPR
        errs := ["Unsupported unary operator in mod encoding " ++ tokStr op] }

/-! ### The type classifier -/

/-- Source-language type descriptors, following the `Type::Category`
hierarchy as far as the encoder inspects it.  `integer` corresponds to
`IntegerType` (bit width and signedness), `fixedBytes` to `FixedBytesType`
(byte count), `enum` to `EnumType` (member count), `tuple` to `TupleType`
(components, where `none` is a null component type), and `other` to every
remaining category. -/
inductive SolType where
  | integer (bits : Nat) (sgn : Bool)
  | fixedBytes (numBytes : Nat)
  | enum (memberCount : Nat)
  | tuple (comps : List (Option SolType))
  | other
deriving Repr

mutual

/-- Shallow embedding of `ASTBoogieUtils::isBitPreciseType`. -/
def isBitPreciseType : SolType → Bool
  | .integer _ _ => true
  | .fixedBytes _ => true
  | .enum _ => true
  | .tuple comps => allBitPrecise comps
  | .other => false

/-- Helper for the tuple case of `isBitPreciseType`: every present
component must itself be bit-precise. -/
def allBitPrecise : List (Option SolType) → Bool
  | [] => true
  | none :: rest => allBitPrecise rest
  | some t :: rest => isBitPreciseType t && allBitPrecise rest

end

/-- Shallow embedding of `ASTBoogieUtils::getBits`.  `none` models the
`solAssert(false, "Trying to get bits for non-bitprecise type")` failure:
only `IntegerType` and `EnumType` are dispatched. -/
def getBits : SolType → Option Nat
  | .integer bits _ => some bits
  | .enum _ => some 256
  | _ => none

/-- Shallow embedding of `ASTBoogieUtils::isSigned`.  `none` models the
`solAssert(false, "Trying to get sign for non-bitprecise type")` failure. -/
def isSigned : SolType → Option Bool
  | .integer _ sgn => some sgn
  | .enum _ => some false
  | _ => none

/-! ### The range / correctness-condition generator -/

/-- Shallow embedding of `ASTBoogieUtils::getTCCforExpr`.  `none` models a
`solAssert` failure escaping from `getBits` / `isSigned`. -/
def getTCCforExpr (expr : Expr) (tp : SolType) : Option Expr :=
  match tp with
  | .enum mc =>
    some (.and_ (.lte (.lit 0) expr) (.lt expr (.lit (Int.ofNat mc))))
  | _ =>
    if isBitPreciseType tp then
      match getBits tp, isSigned tp with
      | some bits, some sgn =>
        if sgn then
          some (.and_ (.lte (.lit (-(2 ^ (bits - 1)))) expr)
                      (.lte expr (.lit (2 ^ (bits - 1) - 1))))
        else
          some (.and_ (.lte (.lit 0) expr)
                      (.lte expr (.lit (2 ^ bits - 1))))
      | _, _ => none
    else some (.litb true)

/-! ### The conversion engine -/

/-- Recognizer for integer literals (`dynamic_pointer_cast<IntLit>`). -/
def isIntLit : Expr → Bool
  | .lit _ => true
  | _ => false

/-- Recognizer for bit-vector literals (`dynamic_pointer_cast<BvLit>`). -/
def isBvLit : Expr → Bool
  | .bvlit _ _ => true
  | _ => false

mutual

/-- Shallow embedding of `ASTBoogieUtils::checkImplicitBvConversion`.
`none` models a fatal outcome: a failed `solAssert` (implicit narrowing,
implicit signed-to-unsigned widening), a `solAssert` escaping from
`getBits`, or dereferencing a null expression / type in the tuple walk. -/
def checkImplicitBvConversion (expr : Expr) (exprType targetType : SolType) :
    Option Expr :=
  match targetType with
  | .tuple tcomps =>
    match expr, exprType with
    | .tuple elems, .tuple ecomps =>
      (convTupleElems elems ecomps tcomps).map Expr.tuple
    | _, _ => none
  | _ =>
    if isBitPreciseType targetType then
      match getBits targetType with
      | none => none
      | some targetBits =>
        match expr with
        | .lit v =>
          if v < 0 then
            some (.bvun "neg" targetBits (.bvlit (-v) targetBits))
          else
            some (.bvlit v targetBits)
        | _ =>
          if isBitPreciseType exprType then
            match getBits exprType, isSigned targetType, isSigned exprType with
            | some exprBits, some targetSigned, some exprSigned =>
              if targetBits = exprBits && targetSigned = exprSigned then
                some expr
              else if targetBits < exprBits then none
              else if !exprSigned then
                some (.bvext "zero" expr exprBits targetBits)
              else if targetSigned then
                some (.bvext "sign" expr exprBits targetBits)
              else none
            | _, _, _ => none
          else some expr
    else some expr

/-- Element-wise tuple walk of `checkImplicitBvConversion`: a component
with an absent target type yields a null element (`none`); a present
target type requires a present element and element type. -/
def convTupleElems : List (Option Expr) → List (Option SolType) →
    List (Option SolType) → Option (List (Option Expr))
  | _, _, [] => some []
  | e :: es, et :: ets, tt :: tts =>
    match tt with
    | none => (convTupleElems es ets tts).map (fun rest => none :: rest)
    | some ttype =>
      match e, et with
      | some ei, some etype =>
        match checkImplicitBvConversion ei etype ttype with
        | some r => (convTupleElems es ets tts).map (fun rest => some r :: rest)
        | none => none
      | _, _ => none
  | _, _, _ => none

end

/-! ### The update-path normalizer -/

/-- Recognizer for select nodes (`dynamic_pointer_cast<SelExpr>`). -/
def isSel : Expr → Bool
  | .arrsel _ _ => true
  | _ => false

/-- Shallow embedding of `ASTBoogieUtils::selectToUpdate`: rewrites a
nested select chain plus a stored value into the corresponding nested
update chain, recursing from the innermost select outward.  `none` models
the `solAssert(false, "Expected datatype/array select")` failure on a
non-select input. -/
def selectToUpdate (sel value : Expr) : Option Expr :=
  match sel with
  | .arrsel base idx =>
    match base with
    | .arrsel _ _ => selectToUpdate base (.arrupd base idx value)
    | _ => some (.arrupd base idx value)
  | _ => none

/-! ### Boogie statements and the built-in procedure bodies -/

/-- Modelled from the spec: the simple (non-branching) Boogie statements
the synthesizer emits.  `assume` carries an `Option Expr` because the C++
passes a possibly-null correctness condition (`ExprWithCC::cc`). -/
inductive SStmt where
  | assume (e : Option Expr)
  | assign (n : String) (e : Expr)
  | comment (s : String)

/-- Modelled from the spec: a Boogie statement is either simple or the
two-armed nondeterministic conditional the synthesizer emits (its guard is
the unconstrained identifier `*`). -/
inductive Stmt where
  | simple (s : SStmt)
  | ifelse (c : Expr) (thenB elseB : List SStmt)

/-- Point update of an environment. -/
def updEnv (env : Env) (n : String) (v : Val) : Env :=
  fun m => if m = n then v else env m

/-- Modelled from the spec: execution of a simple statement.  `none` means
there is no completed execution through the statement: a blocked `assume`
(condition false or ill-typed) or an ill-typed assignment. -/
def execS : SStmt → Env → Option Env
  | .assume none, _ => none
  | .assume (some e), env =>
    match eval e env with
    | some (.bool true) => some env
    | _ => none
  | .assign n e, env => (eval e env).map (updEnv env n)
  | .comment _, env => some env

/-- Execution of a list of simple statements. -/
def execSL : List SStmt → Env → Option Env
  | [], env => some env
  | s :: rest, env => (execS s env).bind (execSL rest)

/-- Execution of a statement. -/
def execStmt : Stmt → Env → Option Env
  | .simple s, env => execS s env
  | .ifelse c thenB elseB, env =>
    match eval c env with
    | some (.bool true) => execSL thenB env
    | some (.bool false) => execSL elseB env
    | _ => none

/-- Execution of a statement list (a procedure body). -/
def execL : List Stmt → Env → Option Env
  | [], env => some env
  | s :: rest, env => (execStmt s env).bind (execL rest)

/-- Modelled from the spec: the canonical identifier of the global balance
map (`context.boogieBalance()`). -/
def balanceId : String := "__balance"

/-- Modelled from the spec: the canonical identifier of the receiving
contract address (`context.boogieThis()`). -/
def thisId : String := "__this"

/-- Modelled from the spec: the canonical identifier of the message sender
address (`context.boogieMsgSender()`). -/
def msgSenderId : String := "__msg_sender"

/-- Modelled from the spec: the canonical identifier of the message value
(`context.boogieMsgValue()`). -/
def msgValueId : String := "__msg_value"

/-- The 256-bit unsigned integer type the synthesizer passes around. -/
def tp_uint256 : SolType := .integer 256 false

/-- Shallow embedding of the body of `ASTBoogieUtils::createTransferProc`,
parameterized by the run configuration (encoding and overflow flag). -/
def createTransferBody (enc : Encoding) (ovf : Bool) : List Stmt :=
  let this_bal : Expr := .arrsel (.id balanceId) (.id thisId)
  let sender_bal : Expr := .arrsel (.id balanceId) (.id msgSenderId)
  let amount : Expr := .id "amount"
  let geqResult := encodeArithBinaryOp enc .GreaterThanOrEqual sender_bal amount 256 false
  let addBalance := encodeArithBinaryOp enc .Add this_bal amount 256 false
  let subSenderBalance := encodeArithBinaryOp enc .Sub sender_bal amount 256 false
  [Stmt.simple (.assume (some geqResult.expr))]
  ++ (if enc = .MOD then
        [Stmt.simple (.assume (getTCCforExpr this_bal tp_uint256)),
         Stmt.simple (.assume (getTCCforExpr amount tp_uint256))]
      else [])
  ++ (if ovf then
        [Stmt.simple (.comment "Implicit assumption that balances cannot overflow"),
         Stmt.simple (.assume addBalance.cc)]
      else [])
  ++ [Stmt.simple (.assign balanceId
        (.arrupd (.id balanceId) (.id thisId) addBalance.expr))]
  ++ (if enc = .MOD then
        [Stmt.simple (.assume (getTCCforExpr sender_bal tp_uint256)),
         Stmt.simple (.assume (getTCCforExpr amount tp_uint256))]
      else [])
  ++ (if ovf then
        [Stmt.simple (.comment "Implicit assumption that balances cannot overflow"),
         Stmt.simple (.assume subSenderBalance.cc)]
      else [])
  ++ [Stmt.simple (.assign balanceId
        (.arrupd (.id balanceId) (.id msgSenderId) subSenderBalance.expr)),
      Stmt.simple (.comment "TODO: call fallback, exception handling")]

/-- Shallow embedding of the body of `ASTBoogieUtils::createCallProc`. -/
def createCallBody (enc : Encoding) (ovf : Bool) : List Stmt :=
  let this_bal : Expr := .arrsel (.id balanceId) (.id thisId)
  let msg_val : Expr := .id msgValueId
  let addBalance := encodeArithBinaryOp enc .Add this_bal msg_val 256 false
  let thenBlock : List SStmt :=
    (if enc = .MOD then
       [.assume (getTCCforExpr this_bal tp_uint256),
        .assume (getTCCforExpr msg_val tp_uint256)]
     else [])
    ++ (if ovf then
          [.comment "Implicit assumption that balances cannot overflow",
           .assume addBalance.cc]
        else [])
    ++ [.assign balanceId (.arrupd (.id balanceId) (.id thisId) addBalance.expr),
        .assign "__result" (.litb true)]
  let elseBlock : List SStmt := [.assign "__result" (.litb false)]
  [Stmt.simple (.comment "TODO: call fallback"),
   Stmt.ifelse (.id "*") thenBlock elseBlock]

/-- Shallow embedding of the body of `ASTBoogieUtils::createSendProc`. -/
def createSendBody (enc : Encoding) (ovf : Bool) : List Stmt :=
  let this_bal : Expr := .arrsel (.id balanceId) (.id thisId)
  let sender_bal : Expr := .arrsel (.id balanceId) (.id msgSenderId)
  let amount : Expr := .id "amount"
  let addBalance := encodeArithBinaryOp enc .Add this_bal amount 256 false
  let subSenderBalance := encodeArithBinaryOp enc .Sub sender_bal amount 256 false
  let senderBalanceGEQ := encodeArithBinaryOp enc .GreaterThanOrEqual sender_bal amount 256 false
  let thenBlock : List SStmt :=
    (if enc = .MOD then
       [.assume (getTCCforExpr this_bal tp_uint256),
        .assume (getTCCforExpr amount tp_uint256)]
     else [])
    ++ (if ovf then
          [.comment "Implicit assumption that balances cannot overflow",
           .assume addBalance.cc]
        else [])
    ++ [.assign balanceId (.arrupd (.id balanceId) (.id thisId) addBalance.expr)]
    ++ (if enc = .MOD then
          [.assume (getTCCforExpr sender_bal tp_uint256),
           .assume (getTCCforExpr amount tp_uint256)]
        else [])
    ++ (if ovf then
          [.comment "Implicit assumption that balances cannot overflow",
           .assume subSenderBalance.cc]
        else [])
    ++ [.assign balanceId (.arrupd (.id balanceId) (.id msgSenderId) subSenderBalance.expr),
        .assign "__result" (.litb true)]
  let elseBlock : List SStmt := [.assign "__result" (.litb false)]
  [Stmt.simple (.assume (some senderBalanceGEQ.expr)),
   Stmt.simple (.comment "TODO: call fallback"),
   Stmt.ifelse (.id "*") thenBlock elseBlock]

/-! ### Spec-side range helpers (used only to state the theorems) -/

/-- The smallest representable value of a `bits`-wide type. -/
def minVal (bits : Nat) (sgn : Bool) : Int :=
  if sgn then -(2 ^ (bits - 1)) else 0

/-- The largest representable value of a `bits`-wide type. -/
def maxVal (bits : Nat) (sgn : Bool) : Int :=
  if sgn then 2 ^ (bits - 1) - 1 else 2 ^ bits - 1

/-- The exact unbounded-integer result of a binary arithmetic operator. -/
def exactBin (op : Tok) (a b : Int) : Int :=
  match op with
  | .Add | .AssignAdd => a + b
  | .Sub | .AssignSub => a - b
  | .Mul | .AssignMul => a * b
  | _ => 0

/-! ### Theorems -/

/-- A fixed environment used to evaluate closed expressions. -/
def env0 : Env := fun _ => Val.int 0

/-- Two integers congruent modulo `M` and closer than `M` are equal. -/
lemma eq_of_dvd_sub_small {M x y : Int} (hdvd : M ∣ x - y)
    (h1 : -M < x - y) (h2 : x - y < M) : x = y := by
  rcases hdvd with ⟨k, hk⟩
  rw [hk] at h1 h2
  have hM : 0 < M := by omega
  have hk1 : k < 1 :=
    lt_of_mul_lt_mul_left (by rw [mul_one]; exact h2) (le_of_lt hM)
  have hk2 : -1 < k :=
    lt_of_mul_lt_mul_left (by rw [mul_neg_one]; exact h1) (le_of_lt hM)
  have hk0 : k = 0 := by omega
  rw [hk0, mul_zero] at hk
  omega

/-- Claim C10 (code bug evidence): `getBits` on a FixedBytes type (here
`bytes4`) fails with an internal-consistency error even though the
classifier reports the type as bit-precise, so the width accessor does not
return the 32-bit width the spec promises. -/
theorem getBits_fixedbytes_fails :
    getBits (SolType.fixedBytes 4) = none ∧
    isBitPreciseType (SolType.fixedBytes 4) = true := by
  exact ⟨rfl, rfl⟩

/-- Claim C3 (code bug evidence): on a FixedBytes type (here `bytes4`,
an unsigned fixed-width 32-bit type per the classifier), `getTCCforExpr`
propagates the `getBits` internal-consistency failure instead of returning
the unsigned range predicate `0 <= x <= 2^32 - 1`. -/
theorem tcc_fixedbytes_fails :
    getTCCforExpr (.id "x") (SolType.fixedBytes 4) = none ∧
    isBitPreciseType (SolType.fixedBytes 4) = true := by
  exact ⟨rfl, rfl⟩

/-- Helper: the unsigned and signed range cases of `getTCCforExpr` on
integer types, evaluated. -/
lemma getTCCforExpr_integer_eval (bits : Nat) (sgn : Bool) (e : Expr)
    (env : Env) (x : Int) (hx : eval e env = some (.int x)) :
    ∃ c : Expr, getTCCforExpr e (.integer bits sgn) = some c ∧
      eval c env = some (.bool (decide (minVal bits sgn ≤ x ∧ x ≤ maxVal bits sgn))) := by
  cases sgn <;>
    simp [getTCCforExpr, isBitPreciseType, getBits, isSigned, eval, hx,
      minVal, maxVal, decide_eq_decide] <;>
    omega

/-- Claim C8: in Modular encoding, exponentiation with two literal
operands returns the exact big-integer power reduced (with the truncated
remainder of the big-integer library) modulo `2^(bits-1)` when signed and
`2^bits` when unsigned, plus a correctness condition equating the
unreduced literal power with the reduced result, and no diagnostics. -/
theorem mod_exp_literal_spec (a b : Int) (bits : Nat) (sgn : Bool)
    (hb : 0 ≤ b) :
    (encodeArithBinaryOp .MOD .Exp (.lit a) (.lit b) bits sgn).expr
      = .lit ((a ^ b.toNat).tmod (2 ^ (if sgn then bits - 1 else bits))) ∧
    (encodeArithBinaryOp .MOD .Exp (.lit a) (.lit b) bits sgn).cc
      = some (.eq (.lit (a ^ b.toNat))
          (.lit ((a ^ b.toNat).tmod (2 ^ (if sgn then bits - 1 else bits))))) ∧
    (encodeArithBinaryOp .MOD .Exp (.lit a) (.lit b) bits sgn).errs = [] := by
  refine ⟨?_, ?_, ?_⟩ <;> simp [encodeArithBinaryOp, asIntLit, intLitCtx]

/-- Witness for `mod_exp_literal_spec` at `3 ** 5` on 8-bit signed:
`3^5 = 243` reduces to `243 mod 128 = 115`. -/
theorem mod_exp_literal_spec_witness :
    (0 : Int) ≤ 5 ∧
    (encodeArithBinaryOp .MOD .Exp (.lit 3) (.lit 5) 8 true).expr = .lit 115 := by
  refine ⟨by decide, ?_⟩
  have h := (mod_exp_literal_spec 3 5 8 true (by decide)).1
  simpa using h

/-- Innermost level of a concrete 3-level nested map. -/
def G3c : Int → Val := fun _ => Val.int 7

/-- Middle level of a concrete 3-level nested map. -/
def G2c : Int → Val := fun _ => Val.arr G3c

/-- A concrete 3-level nested map. -/
def nestedMap : Int → Val := fun _ => Val.arr G2c

/-- An environment binding `b` to the concrete nested map. -/
def envNested : Env := fun n => if n = "b" then Val.arr nestedMap else Val.int 0

/-- Claim C6: for a 3-level select chain `base[i][j][k]` over a base that
is not itself a select, `selectToUpdate` with a new value `v` yields an
update chain such that re-selecting `[i][j][k]` from the result evaluates
to `v`, and selecting any outermost index different from `i` yields the
same value as selecting it from the original base. -/
theorem selectToUpdate_select_spec (b i j k v u : Expr) (env : Env)
    (G G2 G3 : Int → Val) (iv jv kv : Int) (w : Val)
    (hbsel : isSel b = false)
    (hG : eval b env = some (.arr G))
    (hi : eval i env = some (.int iv))
    (hj : eval j env = some (.int jv))
    (hk : eval k env = some (.int kv))
    (hG2 : G iv = .arr G2)
    (hG3 : G2 jv = .arr G3)
    (hv : eval v env = some w)
    (hu : selectToUpdate (.arrsel (.arrsel (.arrsel b i) j) k) v = some u) :
    eval (.arrsel (.arrsel (.arrsel u i) j) k) env = some w ∧
    ∀ x : Int, x ≠ iv → eval (.arrsel u (.lit x)) env = some (G x) := by
  have hu2 : u = .arrupd b i
      (.arrupd (.arrsel b i) j
        (.arrupd (.arrsel (.arrsel b i) j) k v)) := by
    cases b <;> simp [selectToUpdate, isSel] at hbsel hu <;> exact hu.symm
  subst hu2
  constructor
  · simp [eval, hG, hi, hj, hk, hG2, hG3, hv]
  · intro x hx
    simp [eval, hG, hi, hj, hk, hG2, hG3, hv, hx]

/-- Witness for `selectToUpdate_select_spec` on a concrete nested map. -/
theorem selectToUpdate_select_spec_witness :
    eval (.arrsel (.arrsel (.arrsel
        (.arrupd (.id "b") (.lit 1)
          (.arrupd (.arrsel (.id "b") (.lit 1)) (.lit 2)
            (.arrupd (.arrsel (.arrsel (.id "b") (.lit 1)) (.lit 2)) (.lit 3) (.lit 9))))
        (.lit 1)) (.lit 2)) (.lit 3)) envNested = some (.int 9) ∧
    eval (.arrsel
        (.arrupd (.id "b") (.lit 1)
          (.arrupd (.arrsel (.id "b") (.lit 1)) (.lit 2)
            (.arrupd (.arrsel (.arrsel (.id "b") (.lit 1)) (.lit 2)) (.lit 3) (.lit 9))))
        (.lit 0)) envNested
      = some (nestedMap 0) := by
  have h := selectToUpdate_select_spec (.id "b") (.lit 1) (.lit 2) (.lit 3) (.lit 9)
    (.arrupd (.id "b") (.lit 1)
      (.arrupd (.arrsel (.id "b") (.lit 1)) (.lit 2)
        (.arrupd (.arrsel (.arrsel (.id "b") (.lit 1)) (.lit 2)) (.lit 3) (.lit 9))))
    envNested nestedMap G2c G3c
    1 2 3 (.int 9) rfl rfl rfl rfl rfl rfl rfl rfl rfl
  exact ⟨h.1, h.2 0 (by decide)⟩

/-- Claim C7: in Modular encoding, unary minus on a signed operand keeps
the most-negative value fixed and negates otherwise; on an unsigned
operand it maps `0` to `0` and any other value `x` to `2^bits - x`; in
both cases the correctness condition states that the unwrapped negation
equals the wrapped result. -/
theorem mod_unary_minus_spec (bits : Nat) (sgn : Bool) (e : Expr)
    (env : Env) (x : Int) (hx : eval e env = some (.int x)) :
    ∃ c : Expr, (encodeArithUnaryOp .MOD .Sub e bits sgn).cc = some c ∧
      (encodeArithUnaryOp .MOD .Sub e bits sgn).errs = [] ∧
      (sgn = true →
        eval (encodeArithUnaryOp .MOD .Sub e bits sgn).expr env
          = some (.int (if x = -(2 ^ (bits - 1)) then x else -x)) ∧
        eval c env
          = some (.bool (decide (-x = if x = -(2 ^ (bits - 1)) then x else -x)))) ∧
      (sgn = false →
        eval (encodeArithUnaryOp .MOD .Sub e bits sgn).expr env
          = some (.int (if x = 0 then 0 else 2 ^ bits - x)) ∧
        eval c env
          = some (.bool (decide (-x = if x = 0 then 0 else 2 ^ bits - x)))) := by
  cases sgn
  · refine ⟨_, rfl, rfl, by simp, fun _ => ?_⟩
    by_cases h0 : x = 0 <;>
      simp [encodeArithUnaryOp, eval, hx, h0]
  · refine ⟨_, rfl, rfl, fun _ => ?_, by simp⟩
    by_cases hmin : x = -(2 ^ (bits - 1)) <;>
      simp [encodeArithUnaryOp, eval, hx, hmin]

/-- Witness for `mod_unary_minus_spec`: 8-bit signed negation of `-128`
wraps back to `-128` and the correctness condition is false there. -/
theorem mod_unary_minus_spec_witness :
    ∃ c : Expr, (encodeArithUnaryOp .MOD .Sub (.lit (-128)) 8 true).cc = some c ∧
      (encodeArithUnaryOp .MOD .Sub (.lit (-128)) 8 true).errs = [] ∧
      (true = true →
        eval (encodeArithUnaryOp .MOD .Sub (.lit (-128)) 8 true).expr env0
          = some (.int (if (-128 : Int) = -(2 ^ (8 - 1)) then (-128 : Int) else -(-128))) ∧
        eval c env0
          = some (.bool (decide (-(-128 : Int) = if (-128 : Int) = -(2 ^ (8 - 1)) then (-128 : Int) else -(-128))))) ∧
      (true = false →
        eval (encodeArithUnaryOp .MOD .Sub (.lit (-128)) 8 true).expr env0
          = some (.int (if (-128 : Int) = 0 then 0 else 2 ^ 8 - (-128))) ∧
        eval c env0
          = some (.bool (decide (-(-128 : Int) = if (-128 : Int) = 0 then 0 else 2 ^ 8 - (-128))))) :=
  mod_unary_minus_spec 8 true (.lit (-128)) env0 (-128) rfl

/-- Helper: `checkImplicitBvConversion` between integer types on a
non-literal expression, reduced to its width/signedness decision chain. -/
lemma checkImplicitBvConversion_integer (e : Expr) (fw tw : Nat) (fs ts : Bool)
    (hlit : isIntLit e = false) :
    checkImplicitBvConversion e (.integer fw fs) (.integer tw ts)
      = (if tw = fw ∧ ts = fs then some e
         else if tw < fw then none
         else if fs = false then some (.bvext "zero" e fw tw)
         else if ts = true then some (.bvext "sign" e fw tw)
         else none) := by
  cases e <;>
    simp_all [checkImplicitBvConversion, isIntLit, isBitPreciseType, getBits,
      isSigned, Bool.not_eq_true]

/-- Claim C4: between integer (fixed-width) types, implicit conversion
of a non-literal expression is the identity when width and signedness
match, narrowing is a fatal internal-consistency failure, an unsigned
source is zero-extended regardless of target signedness, a signed source
is sign-extended only to a signed target, and implicit signed-to-unsigned
conversion is a fatal internal-consistency failure — but the claim, which
ranges over all fixed-width types, fails on FixedBytes: the classifier
counts FixedBytes as fixed-width, yet the conversion aborts in `getBits`
(even for identical source and target types, where the claim promises the
identity) instead of producing a bit-vector expression. -/
theorem implicit_bv_conversion_spec (e : Expr) (fw tw : Nat) (fs ts : Bool)
    (hlit : isIntLit e = false) :
    (tw = fw → ts = fs →
      checkImplicitBvConversion e (.integer fw fs) (.integer tw ts) = some e) ∧
    (tw < fw →
      checkImplicitBvConversion e (.integer fw fs) (.integer tw ts) = none) ∧
    (fs = false → fw ≤ tw → ¬(tw = fw ∧ ts = false) →
      checkImplicitBvConversion e (.integer fw fs) (.integer tw ts)
        = some (.bvext "zero" e fw tw)) ∧
    (fs = true → ts = true → fw < tw →
      checkImplicitBvConversion e (.integer fw fs) (.integer tw ts)
        = some (.bvext "sign" e fw tw)) ∧
    (fs = true → ts = false → fw ≤ tw →
      checkImplicitBvConversion e (.integer fw fs) (.integer tw ts) = none) ∧
    (checkImplicitBvConversion e (.fixedBytes 4) (.fixedBytes 4) = none ∧
      isBitPreciseType (.fixedBytes 4) = true) := by
  rw [checkImplicitBvConversion_integer e fw tw fs ts hlit]
  refine ⟨?_, ?_, ?_, ?_, ?_, ?_⟩
  · intro h1 h2
    simp [h1, h2]
  · intro h
    have h2 : ¬(tw = fw ∧ ts = fs) := by omega
    simp [h2, h]
  · intro h1 h2 h3
    subst h1
    have hnid : ¬(tw = fw ∧ ts = false) := h3
    have hnlt : ¬tw < fw := by omega
    simp [hnid, hnlt]
  · intro h1 h2 h3
    subst h1; subst h2
    have hnid : ¬(tw = fw ∧ True = False) := by simp
    have hnlt : ¬tw < fw := by omega
    simp [hnlt]
    omega
  · intro h1 h2 h3
    subst h1; subst h2
    have hnid : ¬(tw = fw ∧ (false : Bool) = true) := by simp
    have hnlt : ¬tw < fw := by omega
    simp [hnid, hnlt]
  · exact ⟨by simp [checkImplicitBvConversion, isBitPreciseType, getBits], rfl⟩

/-- Witness for `implicit_bv_conversion_spec`: converting a non-literal
`uint8` expression to `int16` zero-extends from 8 to 16 bits, while the
same conversion attempt between two `bytes4` types aborts. -/
theorem implicit_bv_conversion_spec_witness :
    checkImplicitBvConversion (.id "x") (.integer 8 false) (.integer 16 true)
      = some (.bvext "zero" (.id "x") 8 16) ∧
    checkImplicitBvConversion (.id "x") (.fixedBytes 4) (.fixedBytes 4) = none :=
  ⟨(implicit_bv_conversion_spec (.id "x") 8 16 false true rfl).2.2.1
     rfl (by omega) (by simp),
   (implicit_bv_conversion_spec (.id "x") 8 16 false true rfl).2.2.2.2.2.1⟩

/-- Claim C9: for every input the binary encoder appends at most one
diagnostic, and whenever it appends one it returns the stable unsupported
sentinel `__ERROR` with no correctness condition; in particular,
exponentiation on a non-literal operand in BitVector mode reports exactly
one translation error and produces the sentinel without aborting. -/
theorem unsupported_op_single_error_sentinel (enc : Encoding) (op : Tok)
    (lhs rhs : Expr) (bits : Nat) (sgn : Bool) :
    ((encodeArithBinaryOp enc op lhs rhs bits sgn).errs.length ≤ 1 ∧
     ((encodeArithBinaryOp enc op lhs rhs bits sgn).errs ≠ [] →
       (encodeArithBinaryOp enc op lhs rhs bits sgn).expr = .id ERR_EXPR ∧
       (encodeArithBinaryOp enc op lhs rhs bits sgn).cc = none)) ∧
    (enc = .BV → op = .Exp → (isBvLit lhs = false ∨ isBvLit rhs = false) →
      (encodeArithBinaryOp enc op lhs rhs bits sgn).errs.length = 1 ∧
      (encodeArithBinaryOp enc op lhs rhs bits sgn).expr = .id ERR_EXPR ∧
      (encodeArithBinaryOp enc op lhs rhs bits sgn).cc = none) := by
  constructor
  · cases enc <;> cases op <;> cases sgn <;>
      first
      | (simp [encodeArithBinaryOp]; done)
      | ((rcases h1 : asIntLit lhs with _ | a <;>
          rcases h2 : asIntLit rhs with _ | b <;>
          simp [encodeArithBinaryOp, h1, h2, intLitCtx]); done)
      | ((rcases h1 : asBvLit lhs with _ | a <;>
          rcases h2 : asBvLit rhs with _ | b <;>
          simp [encodeArithBinaryOp, h1, h2, intLitCtx]); done)
  · rintro rfl rfl hnl
    have hnone : asBvLit lhs = none ∨ asBvLit rhs = none := by
      rcases hnl with h | h
      · left; cases lhs <;> simp_all [isBvLit, asBvLit]
      · right; cases rhs <;> simp_all [isBvLit, asBvLit]
    rcases h1 : asBvLit lhs with _ | a <;>
      rcases h2 : asBvLit rhs with _ | b <;>
      simp_all [encodeArithBinaryOp]

/-- Witness for `unsupported_op_single_error_sentinel`: non-literal base
exponentiation in BitVector mode. -/
theorem unsupported_op_single_error_sentinel_witness :
    (encodeArithBinaryOp .BV .Exp (.id "x") (.bvlit 2 8) 8 true).errs.length = 1 ∧
    (encodeArithBinaryOp .BV .Exp (.id "x") (.bvlit 2 8) 8 true).expr = .id ERR_EXPR ∧
    (encodeArithBinaryOp .BV .Exp (.id "x") (.bvlit 2 8) 8 true).cc = none :=
  (unsupported_op_single_error_sentinel .BV .Exp (.id "x") (.bvlit 2 8) 8 true).2
    rfl rfl (Or.inl rfl)

/-- The value the Modular encoding's addition expression denotes. -/
def addWrap (bits : Nat) (sgn : Bool) (a b : Int) : Int :=
  if sgn then
    if a + b > 2 ^ (bits - 1) - 1 then a + b - 2 ^ bits
    else if a + b < -(2 ^ (bits - 1)) then a + b + 2 ^ bits
    else a + b
  else
    if a + b ≥ 2 ^ bits then a + b - 2 ^ bits else a + b

/-- The value the Modular encoding's subtraction expression denotes. -/
def subWrap (bits : Nat) (sgn : Bool) (a b : Int) : Int :=
  if sgn then
    if a - b > 2 ^ (bits - 1) - 1 then a - b - 2 ^ bits
    else if a - b < -(2 ^ (bits - 1)) then a - b + 2 ^ bits
    else a - b
  else
    if a ≥ b then a - b else a - b + 2 ^ bits

/-- The value the Modular encoding's multiplication expression denotes. -/
def mulWrap (bits : Nat) (sgn : Bool) (a b : Int) : Int :=
  if sgn then
    let a1 := if a ≥ 0 then a else 2 ^ bits + a
    let b1 := if b ≥ 0 then b else 2 ^ bits + b
    let p := (a1 * b1) % 2 ^ bits
    if p > 2 ^ (bits - 1) - 1 then p - 2 ^ bits else p
  else
    if a * b ≥ 2 ^ bits then (a * b) % 2 ^ bits else a * b

/-- Helper: the Modular addition encoding evaluates to `addWrap` and its
correctness condition compares the exact sum with the result. -/
lemma mod_add_eval (lhs rhs : Expr) (bits : Nat) (sgn : Bool) (env : Env)
    (a b : Int)
    (ha : eval lhs env = some (.int a)) (hb : eval rhs env = some (.int b)) :
    (encodeArithBinaryOp .MOD .Add lhs rhs bits sgn).cc
      = some (.eq (.plus lhs rhs) (encodeArithBinaryOp .MOD .Add lhs rhs bits sgn).expr) ∧
    eval (encodeArithBinaryOp .MOD .Add lhs rhs bits sgn).expr env
      = some (.int (addWrap bits sgn a b)) := by
  cases sgn
  · refine ⟨rfl, ?_⟩
    by_cases h1 : a + b ≥ (2:Int) ^ bits <;>
      simp [encodeArithBinaryOp, eval, ha, hb, addWrap, h1]
  · refine ⟨rfl, ?_⟩
    by_cases h1 : a + b > 2 ^ (bits - 1) - 1
    · simp [encodeArithBinaryOp, eval, ha, hb, addWrap, h1]
    · by_cases h2 : a + b < -((2:Int) ^ (bits - 1)) <;>
        simp [encodeArithBinaryOp, eval, ha, hb, addWrap, h1, h2]

/-- Helper: the Modular subtraction encoding evaluates to `subWrap` and
its correctness condition compares the exact difference with the result. -/
lemma mod_sub_eval (lhs rhs : Expr) (bits : Nat) (sgn : Bool) (env : Env)
    (a b : Int)
    (ha : eval lhs env = some (.int a)) (hb : eval rhs env = some (.int b)) :
    (encodeArithBinaryOp .MOD .Sub lhs rhs bits sgn).cc
      = some (.eq (.minus lhs rhs) (encodeArithBinaryOp .MOD .Sub lhs rhs bits sgn).expr) ∧
    eval (encodeArithBinaryOp .MOD .Sub lhs rhs bits sgn).expr env
      = some (.int (subWrap bits sgn a b)) := by
  cases sgn
  · refine ⟨rfl, ?_⟩
    by_cases h1 : a ≥ b <;>
      simp [encodeArithBinaryOp, eval, ha, hb, subWrap, h1]
  · refine ⟨rfl, ?_⟩
    by_cases h1 : a - b > 2 ^ (bits - 1) - 1
    · simp [encodeArithBinaryOp, eval, ha, hb, subWrap, h1]
    · by_cases h2 : a - b < -((2:Int) ^ (bits - 1)) <;>
        simp [encodeArithBinaryOp, eval, ha, hb, subWrap, h1, h2]

/-- Helper: the Modular multiplication encoding evaluates to `mulWrap` and
its correctness condition compares the exact product with the result. -/
lemma mod_mul_eval (lhs rhs : Expr) (bits : Nat) (sgn : Bool) (env : Env)
    (a b : Int)
    (ha : eval lhs env = some (.int a)) (hb : eval rhs env = some (.int b)) :
    (encodeArithBinaryOp .MOD .Mul lhs rhs bits sgn).cc
      = some (.eq (.times lhs rhs) (encodeArithBinaryOp .MOD .Mul lhs rhs bits sgn).expr) ∧
    eval (encodeArithBinaryOp .MOD .Mul lhs rhs bits sgn).expr env
      = some (.int (mulWrap bits sgn a b)) := by
  cases sgn
  · refine ⟨rfl, ?_⟩
    by_cases h1 : a * b ≥ (2:Int) ^ bits <;>
      simp [encodeArithBinaryOp, eval, ha, hb, mulWrap, h1]
  · refine ⟨rfl, ?_⟩
    by_cases ha0 : a ≥ (0:Int) <;> by_cases hb0 : b ≥ (0:Int)
    · by_cases hp : (a * b) % (2:Int) ^ bits > 2 ^ (bits - 1) - 1 <;>
        simp [encodeArithBinaryOp, eval, ha, hb, mulWrap, ha0, hb0, hp]
    · by_cases hp : (a * ((2:Int) ^ bits + b)) % 2 ^ bits > 2 ^ (bits - 1) - 1 <;>
        simp [encodeArithBinaryOp, eval, ha, hb, mulWrap, ha0, hb0, hp]
    · by_cases hp : (((2:Int) ^ bits + a) * b) % 2 ^ bits > 2 ^ (bits - 1) - 1 <;>
        simp [encodeArithBinaryOp, eval, ha, hb, mulWrap, ha0, hb0, hp]
    · by_cases hp : (((2:Int) ^ bits + a) * ((2:Int) ^ bits + b)) % 2 ^ bits > 2 ^ (bits - 1) - 1 <;>
        simp [encodeArithBinaryOp, eval, ha, hb, mulWrap, ha0, hb0, hp]

/-- Splitting `2^bits` at the sign bit. -/
lemma two_pow_split (bits : Nat) (hbits : 0 < bits) :
    (2:Int) ^ bits = 2 * 2 ^ (bits - 1) := by
  conv_lhs => rw [show bits = bits - 1 + 1 from (Nat.succ_pred_eq_of_pos hbits).symm]
  rw [pow_succ]; ring

/-- Arithmetic facts about signed `addWrap` on in-range operands. -/
lemma addWrap_signed_facts (bits : Nat) (hbits : 0 < bits) (a b : Int)
    (hal : -(2 ^ (bits - 1)) ≤ a) (hau : a ≤ 2 ^ (bits - 1) - 1)
    (hbl : -(2 ^ (bits - 1)) ≤ b) (hbu : b ≤ 2 ^ (bits - 1) - 1) :
    (-(2 ^ (bits - 1)) ≤ addWrap bits true a b ∧
      addWrap bits true a b ≤ 2 ^ (bits - 1) - 1) ∧
    ((-(2 ^ (bits - 1)) ≤ a + b ∧ a + b ≤ 2 ^ (bits - 1) - 1) →
      addWrap bits true a b = a + b) ∧
    (¬(-(2 ^ (bits - 1)) ≤ a + b ∧ a + b ≤ 2 ^ (bits - 1) - 1) →
      addWrap bits true a b = a + b - 2 ^ bits ∨
      addWrap bits true a b = a + b + 2 ^ bits) ∧
    ((2 ^ bits : Int) ∣ a + b - addWrap bits true a b) := by
  have hM := two_pow_split bits hbits
  have hH : (0:Int) < 2 ^ (bits - 1) := pow_pos (by norm_num) _
  simp only [addWrap, if_true]
  split_ifs with h1 h2 <;>
    refine ⟨by constructor <;> omega, by omega, by omega, ?_⟩
  · exact ⟨1, by omega⟩
  · exact ⟨-1, by omega⟩
  · exact ⟨0, by omega⟩

/-- Arithmetic facts about signed `subWrap` on in-range operands. -/
lemma subWrap_signed_facts (bits : Nat) (hbits : 0 < bits) (a b : Int)
    (hal : -(2 ^ (bits - 1)) ≤ a) (hau : a ≤ 2 ^ (bits - 1) - 1)
    (hbl : -(2 ^ (bits - 1)) ≤ b) (hbu : b ≤ 2 ^ (bits - 1) - 1) :
    (-(2 ^ (bits - 1)) ≤ subWrap bits true a b ∧
      subWrap bits true a b ≤ 2 ^ (bits - 1) - 1) ∧
    ((-(2 ^ (bits - 1)) ≤ a - b ∧ a - b ≤ 2 ^ (bits - 1) - 1) →
      subWrap bits true a b = a - b) ∧
    (¬(-(2 ^ (bits - 1)) ≤ a - b ∧ a - b ≤ 2 ^ (bits - 1) - 1) →
      subWrap bits true a b = a - b - 2 ^ bits ∨
      subWrap bits true a b = a - b + 2 ^ bits) ∧
    ((2 ^ bits : Int) ∣ a - b - subWrap bits true a b) := by
  have hM := two_pow_split bits hbits
  have hH : (0:Int) < 2 ^ (bits - 1) := pow_pos (by norm_num) _
  simp only [subWrap, if_true]
  split_ifs with h1 h2 <;>
    refine ⟨by constructor <;> omega, by omega, by omega, ?_⟩
  · exact ⟨1, by omega⟩
  · exact ⟨-1, by omega⟩
  · exact ⟨0, by omega⟩

/-- Arithmetic facts about unsigned `addWrap` on in-range operands. -/
lemma addWrap_unsigned_facts (bits : Nat) (a b : Int)
    (hal : 0 ≤ a) (hau : a ≤ 2 ^ bits - 1)
    (hbl : 0 ≤ b) (hbu : b ≤ 2 ^ bits - 1) :
    (0 ≤ addWrap bits false a b ∧ addWrap bits false a b ≤ 2 ^ bits - 1) ∧
    ((0 ≤ a + b ∧ a + b ≤ 2 ^ bits - 1) → addWrap bits false a b = a + b) ∧
    addWrap bits false a b = (a + b) % 2 ^ bits := by
  have hM : (0:Int) < 2 ^ bits := pow_pos (by norm_num) _
  simp only [addWrap, if_false, Bool.false_eq_true]
  split_ifs with h1
  · refine ⟨by constructor <;> omega, by omega, ?_⟩
    have h2 : (a + b) % 2 ^ bits = (a + b - 2 ^ bits) % 2 ^ bits := by
      conv_lhs => rw [show a + b = a + b - 2 ^ bits + 2 ^ bits by ring]
      rw [Int.add_emod_self]
    rw [h2, Int.emod_eq_of_lt (by omega) (by omega)]
  · refine ⟨by constructor <;> omega, by omega, ?_⟩
    rw [Int.emod_eq_of_lt (by omega) (by omega)]

/-- Arithmetic facts about unsigned `subWrap` on in-range operands. -/
lemma subWrap_unsigned_facts (bits : Nat) (a b : Int)
    (hal : 0 ≤ a) (hau : a ≤ 2 ^ bits - 1)
    (hbl : 0 ≤ b) (hbu : b ≤ 2 ^ bits - 1) :
    (0 ≤ subWrap bits false a b ∧ subWrap bits false a b ≤ 2 ^ bits - 1) ∧
    ((0 ≤ a - b ∧ a - b ≤ 2 ^ bits - 1) → subWrap bits false a b = a - b) ∧
    subWrap bits false a b = (a - b) % 2 ^ bits := by
  have hM : (0:Int) < 2 ^ bits := pow_pos (by norm_num) _
  simp only [subWrap, if_false, Bool.false_eq_true]
  split_ifs with h1
  · refine ⟨by constructor <;> omega, by omega, ?_⟩
    rw [Int.emod_eq_of_lt (by omega) (by omega)]
  · refine ⟨by constructor <;> omega, by omega, ?_⟩
    have h2 : (a - b) % 2 ^ bits = (a - b + 2 ^ bits) % 2 ^ bits :=
      (Int.add_emod_self).symm
    rw [h2, Int.emod_eq_of_lt (by omega) (by omega)]

/-- Arithmetic facts about unsigned `mulWrap` on in-range operands. -/
lemma mulWrap_unsigned_facts (bits : Nat) (a b : Int)
    (hal : 0 ≤ a) (hau : a ≤ 2 ^ bits - 1)
    (hbl : 0 ≤ b) (hbu : b ≤ 2 ^ bits - 1) :
    (0 ≤ mulWrap bits false a b ∧ mulWrap bits false a b ≤ 2 ^ bits - 1) ∧
    ((0 ≤ a * b ∧ a * b ≤ 2 ^ bits - 1) → mulWrap bits false a b = a * b) ∧
    mulWrap bits false a b = (a * b) % 2 ^ bits := by
  have hM : (0:Int) < 2 ^ bits := pow_pos (by norm_num) _
  have hab : 0 ≤ a * b := mul_nonneg hal hbl
  simp only [mulWrap, if_false, Bool.false_eq_true]
  split_ifs with h1
  · have hnn := Int.emod_nonneg (a * b) (ne_of_gt hM)
    have hlt := Int.emod_lt_of_pos (a * b) hM
    exact ⟨by constructor <;> omega, by omega, rfl⟩
  · refine ⟨by constructor <;> omega, by omega, ?_⟩
    rw [Int.emod_eq_of_lt (by omega) (by omega)]

/-- Arithmetic facts about signed `mulWrap` on in-range operands: the
result is in range and congruent to the exact product modulo `2^bits`,
hence equal to it whenever the exact product is in range. -/
lemma mulWrap_signed_facts (bits : Nat) (hbits : 0 < bits) (a b : Int)
    (hal : -(2 ^ (bits - 1)) ≤ a) (hau : a ≤ 2 ^ (bits - 1) - 1)
    (hbl : -(2 ^ (bits - 1)) ≤ b) (hbu : b ≤ 2 ^ (bits - 1) - 1) :
    (-(2 ^ (bits - 1)) ≤ mulWrap bits true a b ∧
      mulWrap bits true a b ≤ 2 ^ (bits - 1) - 1) ∧
    ((2 ^ bits : Int) ∣ a * b - mulWrap bits true a b) ∧
    ((-(2 ^ (bits - 1)) ≤ a * b ∧ a * b ≤ 2 ^ (bits - 1) - 1) →
      mulWrap bits true a b = a * b) := by
  have hMH := two_pow_split bits hbits
  have hH : (0:Int) < 2 ^ (bits - 1) := pow_pos (by norm_num) _
  have hM : (0:Int) < 2 ^ bits := pow_pos (by norm_num) _
  set M : Int := 2 ^ bits with hMdef
  set a1 : Int := if a ≥ 0 then a else M + a with ha1def
  set b1 : Int := if b ≥ 0 then b else M + b with hb1def
  have ha1 : a1 % M = a % M := by
    rw [ha1def]; split_ifs with h
    · rfl
    · rw [add_comm, Int.add_emod_self]
  have hb1 : b1 % M = b % M := by
    rw [hb1def]; split_ifs with h
    · rfl
    · rw [add_comm, Int.add_emod_self]
  set p : Int := (a1 * b1) % M with hpdef
  have hp0 : 0 ≤ p := Int.emod_nonneg _ (ne_of_gt hM)
  have hpM : p < M := Int.emod_lt_of_pos _ hM
  have hcong : (a * b) % M = p % M := by
    rw [hpdef, Int.emod_emod_of_dvd _ dvd_rfl, Int.mul_emod, ← ha1, ← hb1,
      ← Int.mul_emod]
  have hdvd : M ∣ a * b - p := by
    have h1 : a * b % M - p % M = 0 := by
      rw [hcong, Int.emod_emod_of_dvd _ dvd_rfl]; omega
    have h2 := Int.sub_emod (a * b) p M
    have h3 : (a * b - p) % M = 0 := by rw [h2, h1]; simp
    exact Int.dvd_of_emod_eq_zero h3
  have hru : mulWrap bits true a b = (if p > 2 ^ (bits - 1) - 1 then p - M else p) := by
    rw [mulWrap]
    simp only [if_true, ← ha1def, ← hb1def, ← hpdef, ← hMdef]
  rw [hru]
  split_ifs with hp1
  · have hdvd2 : M ∣ a * b - (p - M) := by
      rcases hdvd with ⟨k, hk⟩
      exact ⟨k + 1, by rw [mul_add, mul_one, ← hk]; ring⟩
    refine ⟨by constructor <;> omega, hdvd2, fun hrange => ?_⟩
    exact (eq_of_dvd_sub_small hdvd2 (by omega) (by omega)).symm
  · refine ⟨by constructor <;> omega, hdvd, fun hrange => ?_⟩
    exact (eq_of_dvd_sub_small hdvd (by omega) (by omega)).symm

/-- A wrapped result in range equals the exact result precisely when the
exact result is in range. -/
lemma wrap_eq_iff {lo hi exact R : Int} (hR1 : lo ≤ R) (hR2 : R ≤ hi)
    (hF : lo ≤ exact ∧ exact ≤ hi → R = exact) :
    (exact = R) ↔ (lo ≤ exact ∧ exact ≤ hi) :=
  ⟨fun h => h ▸ ⟨hR1, hR2⟩, fun h => (hF h).symm⟩

/-- Claim C1 (amended): in Modular encoding, Add, Sub and Mul on in-range
operands produce a wrapped result `r` and a correctness condition that
evaluates to true iff the exact result is in `[min,max]`; `r` is itself in
range and equals the exact result when the latter is in range; when the
condition is false, `r` is `exact mod 2^bits` in the unsigned case and
`exact - 2^bits` or `exact + 2^bits` in the signed Add/Sub case; in the
signed Mul case `r`
is only congruent to the exact product modulo `2^bits` (it can differ from
the exact product by more than one modulus). -/
theorem mod_add_sub_mul_wrap_spec
    (op : Tok) (hop : op = .Add ∨ op = .Sub ∨ op = .Mul)
    (bits : Nat) (hbits : 0 < bits) (sgn : Bool)
    (lhs rhs : Expr) (env : Env) (a b : Int)
    (ha : eval lhs env = some (.int a)) (hb : eval rhs env = some (.int b))
    (hal : minVal bits sgn ≤ a) (hau : a ≤ maxVal bits sgn)
    (hbl : minVal bits sgn ≤ b) (hbu : b ≤ maxVal bits sgn) :
    ∃ (c : Expr) (r : Int),
      (encodeArithBinaryOp .MOD op lhs rhs bits sgn).cc = some c ∧
      eval (encodeArithBinaryOp .MOD op lhs rhs bits sgn).expr env = some (.int r) ∧
      eval c env = some (.bool (decide (minVal bits sgn ≤ exactBin op a b ∧
        exactBin op a b ≤ maxVal bits sgn))) ∧
      minVal bits sgn ≤ r ∧ r ≤ maxVal bits sgn ∧
      ((minVal bits sgn ≤ exactBin op a b ∧ exactBin op a b ≤ maxVal bits sgn) →
        r = exactBin op a b) ∧
      (sgn = false → r = exactBin op a b % 2 ^ bits) ∧
      (sgn = true → (op = .Add ∨ op = .Sub) →
        ¬(minVal bits sgn ≤ exactBin op a b ∧ exactBin op a b ≤ maxVal bits sgn) →
        (r = exactBin op a b - 2 ^ bits ∨ r = exactBin op a b + 2 ^ bits)) ∧
      (sgn = true → (2 ^ bits : Int) ∣ exactBin op a b - r) := by
  rcases hop with rfl | rfl | rfl <;> cases sgn
  · -- Add, unsigned
    simp only [minVal, maxVal, exactBin, Bool.false_eq_true, if_false] at *
    obtain ⟨hcc, hev⟩ := mod_add_eval lhs rhs bits false env a b ha hb
    obtain ⟨⟨hr1, hr2⟩, hexact, hmod⟩ :=
      addWrap_unsigned_facts bits a b hal hau hbl hbu
    refine ⟨_, addWrap bits false a b, hcc, hev, ?_, hr1, hr2, hexact,
      fun _ => hmod, fun h => by simp at h, fun h => by simp at h⟩
    revert hev
    generalize (encodeArithBinaryOp .MOD .Add lhs rhs bits false).expr = E
    intro hev
    simp only [eval, ha, hb, hev]
    exact congrArg (fun x => some (Val.bool x))
      (decide_eq_decide.mpr (wrap_eq_iff hr1 hr2 hexact))
  · -- Add, signed
    simp only [minVal, maxVal, exactBin, if_true] at *
    obtain ⟨hcc, hev⟩ := mod_add_eval lhs rhs bits true env a b ha hb
    obtain ⟨⟨hr1, hr2⟩, hexact, hoor, hdvd⟩ :=
      addWrap_signed_facts bits hbits a b hal hau hbl hbu
    refine ⟨_, addWrap bits true a b, hcc, hev, ?_, hr1, hr2, hexact,
      fun h => by simp at h, fun _ _ => hoor, fun _ => hdvd⟩
    revert hev
    generalize (encodeArithBinaryOp .MOD .Add lhs rhs bits true).expr = E
    intro hev
    simp only [eval, ha, hb, hev]
    exact congrArg (fun x => some (Val.bool x))
      (decide_eq_decide.mpr (wrap_eq_iff hr1 hr2 hexact))
  · -- Sub, unsigned
    simp only [minVal, maxVal, exactBin, Bool.false_eq_true, if_false] at *
    obtain ⟨hcc, hev⟩ := mod_sub_eval lhs rhs bits false env a b ha hb
    obtain ⟨⟨hr1, hr2⟩, hexact, hmod⟩ :=
      subWrap_unsigned_facts bits a b hal hau hbl hbu
    refine ⟨_, subWrap bits false a b, hcc, hev, ?_, hr1, hr2, hexact,
      fun _ => hmod, fun h => by simp at h, fun h => by simp at h⟩
    revert hev
    generalize (encodeArithBinaryOp .MOD .Sub lhs rhs bits false).expr = E
    intro hev
    simp only [eval, ha, hb, hev]
    exact congrArg (fun x => some (Val.bool x))
      (decide_eq_decide.mpr (wrap_eq_iff hr1 hr2 hexact))
  · -- Sub, signed
    simp only [minVal, maxVal, exactBin, if_true] at *
    obtain ⟨hcc, hev⟩ := mod_sub_eval lhs rhs bits true env a b ha hb
    obtain ⟨⟨hr1, hr2⟩, hexact, hoor, hdvd⟩ :=
      subWrap_signed_facts bits hbits a b hal hau hbl hbu
    refine ⟨_, subWrap bits true a b, hcc, hev, ?_, hr1, hr2, hexact,
      fun h => by simp at h, fun _ _ => hoor, fun _ => hdvd⟩
    revert hev
    generalize (encodeArithBinaryOp .MOD .Sub lhs rhs bits true).expr = E
    intro hev
    simp only [eval, ha, hb, hev]
    exact congrArg (fun x => some (Val.bool x))
      (decide_eq_decide.mpr (wrap_eq_iff hr1 hr2 hexact))
  · -- Mul, unsigned
    simp only [minVal, maxVal, exactBin, Bool.false_eq_true, if_false] at *
    obtain ⟨hcc, hev⟩ := mod_mul_eval lhs rhs bits false env a b ha hb
    obtain ⟨⟨hr1, hr2⟩, hexact, hmod⟩ :=
      mulWrap_unsigned_facts bits a b hal hau hbl hbu
    refine ⟨_, mulWrap bits false a b, hcc, hev, ?_, hr1, hr2, hexact,
      fun _ => hmod, fun h => by simp at h, fun h => by simp at h⟩
    revert hev
    generalize (encodeArithBinaryOp .MOD .Mul lhs rhs bits false).expr = E
    intro hev
    simp only [eval, ha, hb, hev]
    exact congrArg (fun x => some (Val.bool x))
      (decide_eq_decide.mpr (wrap_eq_iff hr1 hr2 hexact))
  · -- Mul, signed
    simp only [minVal, maxVal, exactBin, if_true] at *
    obtain ⟨hcc, hev⟩ := mod_mul_eval lhs rhs bits true env a b ha hb
    obtain ⟨⟨hr1, hr2⟩, hdvd, hexact⟩ :=
      mulWrap_signed_facts bits hbits a b hal hau hbl hbu
    refine ⟨_, mulWrap bits true a b, hcc, hev, ?_, hr1, hr2, hexact,
      fun h => by simp at h, fun _ hAS _ => ?_, fun _ => hdvd⟩
    · revert hev
      generalize (encodeArithBinaryOp .MOD .Mul lhs rhs bits true).expr = E
      intro hev
      simp only [eval, ha, hb, hev]
      exact congrArg (fun x => some (Val.bool x))
        (decide_eq_decide.mpr (wrap_eq_iff hr1 hr2 hexact))
    · rcases hAS with h | h <;> simp at h

/-- Counterexample for claim C1 as stated: for 8-bit signed Modular Mul
with in-range operands 100 and 100, the correctness condition is false and
the wrapped result is 16, which is neither `exact - 2^8` nor
`exact + 2^8` (the exact product is 10000). -/
theorem mod_mul_signed_wrap_cex :
    minVal 8 true ≤ 100 ∧ (100 : Int) ≤ maxVal 8 true ∧
    eval (encodeArithBinaryOp .MOD .Mul (.lit 100) (.lit 100) 8 true).expr env0
      = some (.int 16) ∧
    ((encodeArithBinaryOp .MOD .Mul (.lit 100) (.lit 100) 8 true).cc.bind
      (fun c => eval c env0)) = some (.bool false) ∧
    (16 : Int) ≠ 100 * 100 - 2 ^ 8 ∧ (16 : Int) ≠ 100 * 100 + 2 ^ 8 := by
  exact ⟨by decide, by decide, by rfl, by rfl, by decide, by decide⟩

/-- Witness for `mod_add_sub_mul_wrap_spec`: the concrete 8-bit signed
scenario `127 + 1` (exact 128, wrapped -128, condition false). -/
theorem mod_add_sub_mul_wrap_spec_witness :
    ∃ (c : Expr) (r : Int),
      (encodeArithBinaryOp .MOD .Add (.lit 127) (.lit 1) 8 true).cc = some c ∧
      eval (encodeArithBinaryOp .MOD .Add (.lit 127) (.lit 1) 8 true).expr env0
        = some (.int r) ∧
      eval c env0 = some (.bool (decide (minVal 8 true ≤ exactBin .Add 127 1 ∧
        exactBin .Add 127 1 ≤ maxVal 8 true))) ∧
      minVal 8 true ≤ r ∧ r ≤ maxVal 8 true ∧
      ((minVal 8 true ≤ exactBin .Add 127 1 ∧ exactBin .Add 127 1 ≤ maxVal 8 true) →
        r = exactBin .Add 127 1) ∧
      (true = false → r = exactBin .Add 127 1 % 2 ^ 8) ∧
      (true = true → (Tok.Add = .Add ∨ Tok.Add = .Sub) →
        ¬(minVal 8 true ≤ exactBin .Add 127 1 ∧ exactBin .Add 127 1 ≤ maxVal 8 true) →
        (r = exactBin .Add 127 1 - 2 ^ 8 ∨ r = exactBin .Add 127 1 + 2 ^ 8)) ∧
      (true = true → (2 ^ 8 : Int) ∣ exactBin .Add 127 1 - r) :=
  mod_add_sub_mul_wrap_spec .Add (Or.inl rfl) 8 (by decide) true
    (.lit 127) (.lit 1) env0 127 1 rfl rfl
    (by decide) (by decide) (by decide) (by decide)

/-- Stepping: a passed `assume` yields its condition and keeps the state. -/
lemma assume_step {e : Expr} {env env1 : Env} {P : Prop} [Decidable P]
    (h : execStmt (.simple (.assume (some e))) env = some env1)
    (he : eval e env = some (.bool (decide P))) :
    P ∧ env = env1 := by
  by_cases hP : P <;> simp [execStmt, execS, he, hP] at h
  exact ⟨hP, h⟩

/-- Stepping: an assignment updates the state with the evaluated value. -/
lemma assign_step {n : String} {e : Expr} {env env1 : Env} {v : Val}
    (h : execStmt (.simple (.assign n e)) env = some env1)
    (he : eval e env = some v) :
    env1 = updEnv env n v := by
  simp [execStmt, execS, he] at h
  exact h.symm

/-- Evaluation of an equality expression over integer subterms. -/
lemma eval_eq_int {a b : Expr} {env : Env} {x y : Int}
    (hx : eval a env = some (.int x)) (hy : eval b env = some (.int y)) :
    eval (.eq a b) env = some (.bool (decide (x = y))) := by
  simp [eval, hx, hy]

/-- Evaluation of a map update over evaluated subterms. -/
lemma eval_arrupd_of {a i v : Expr} {env : Env} {f : Int → Val} {idx : Int}
    {w : Val}
    (h1 : eval a env = some (.arr f)) (h2 : eval i env = some (.int idx))
    (h3 : eval v env = some w) :
    eval (.arrupd a i v) env
      = some (.arr (fun j => if j = idx then w else f j)) := by
  simp [eval, h1, h2, h3]

/-- Stepping: a comment keeps the state. -/
lemma comment_step {s : String} {env env1 : Env}
    (h : execStmt (.simple (.comment s)) env = some env1) :
    env = env1 := by
  simp [execStmt, execS] at h
  exact h

/-- Stepping inside a branch: a passed `assume`. -/
lemma assumeS_step {e : Expr} {env env1 : Env} {P : Prop} [Decidable P]
    (h : execS (.assume (some e)) env = some env1)
    (he : eval e env = some (.bool (decide P))) :
    P ∧ env = env1 := by
  by_cases hP : P <;> simp [execS, he, hP] at h
  exact ⟨hP, h⟩

/-- Stepping inside a branch: an assignment. -/
lemma assignS_step {n : String} {e : Expr} {env env1 : Env} {v : Val}
    (h : execS (.assign n e) env = some env1)
    (he : eval e env = some v) :
    env1 = updEnv env n v := by
  simp [execS, he] at h
  exact h.symm

/-- Stepping inside a branch: a comment. -/
lemma commentS_step {s : String} {env env1 : Env}
    (h : execS (.comment s) env = some env1) :
    env = env1 := by
  simp [execS] at h
  exact h

/-- Stepping: a nondeterministic conditional whose guard evaluates to true
executes its then-branch. -/
lemma ifelse_true_step {c : Expr} {t e : List SStmt} {env env1 : Env}
    (h : execStmt (.ifelse c t e) env = some env1)
    (hc : eval c env = some (.bool true)) :
    execSL t env = some env1 := by
  simpa [execStmt, hc] using h

/-- Balance map of the claim C2 counterexample: `balance[0] = 2^256 - 1`,
every other balance `50`. -/
def cexBal : Int → Val := fun k => if k = 0 then Val.int (2 ^ 256 - 1) else Val.int 50

/-- Pre-state of the claim C2 counterexample. -/
def cexEnv : Env := fun n =>
  if n = balanceId then Val.arr cexBal
  else if n = thisId then Val.int 0
  else if n = msgSenderId then Val.int 1
  else if n = "amount" then Val.int 50
  else Val.int 0

set_option maxRecDepth 8000 in
/-- Counterexample for claim C2 as stated: in Modular encoding without
overflow checking, the transfer body completes on a pre-state with
`balance[this] = 2^256 - 1` and `amount = 50` (the sufficiency
precondition holds), yet the final `balance[this]` is `49`, not
`balance[this] + amount`, and the balance sum is not conserved. -/
theorem transfer_mod_no_overflow_wrap_cex :
    ((execL (createTransferBody .MOD false) cexEnv).bind
      (fun e => eval (.arrsel (.id balanceId) (.id thisId)) e)) = some (.int 49) ∧
    ((execL (createTransferBody .MOD false) cexEnv).bind
      (fun e => eval (.arrsel (.id balanceId) (.id msgSenderId)) e)) = some (.int 0) ∧
    cexBal 0 = Val.int (2 ^ 256 - 1) ∧ cexEnv "amount" = Val.int 50 ∧
    (49 : Int) ≠ (2 ^ 256 - 1) + 50 ∧
    (49 : Int) + 0 ≠ (2 ^ 256 - 1) + 50 := by
  exact ⟨rfl, rfl, rfl, rfl, by decide, by decide⟩

set_option maxRecDepth 8000 in
/-- Claim C2 (amended): in Mathematical encoding, and in Modular encoding
with overflow checking enabled (the configurations in which the assumed
correctness conditions rule wraparound out), every completed execution of
the synthesized transfer body satisfies the sender-sufficiency assumption
and performs the exact updates `balance[this] += amount`,
`balance[sender] -= amount`, conserving the balance sum, for every
pre-state balance map (`this` and `sender` distinct); in Modular encoding
without overflow checking the update can wrap, violating them. -/
theorem transfer_updates_and_conservation
    (enc : Encoding) (ovf : Bool)
    (hmode : (enc = .INT ∧ ovf = false) ∨ (enc = .MOD ∧ ovf = true))
    (env : Env) (tA sA bt bs amt : Int) (bal : Int → Val) (env2 : Env)
    (hT : env thisId = .int tA) (hS : env msgSenderId = .int sA)
    (hne : tA ≠ sA)
    (hB : env balanceId = .arr bal) (hA : env "amount" = .int amt)
    (hbt : bal tA = .int bt) (hbs : bal sA = .int bs)
    (hexec : execL (createTransferBody enc ovf) env = some env2) :
    bs ≥ amt ∧
    ∃ bal2 : Int → Val, env2 balanceId = .arr bal2 ∧
      bal2 tA = .int (bt + amt) ∧ bal2 sA = .int (bs - amt) ∧
      (bt + amt) + (bs - amt) = bt + bs ∧
      (∀ k : Int, k ≠ tA → k ≠ sA → bal2 k = bal k) ∧
      (∀ n : String, n ≠ balanceId → env2 n = env n) := by
  have hne2 : sA ≠ tA := Ne.symm hne
  simp only [balanceId, thisId, msgSenderId, msgValueId] at hT hS hB hA
  rcases hmode with ⟨rfl, rfl⟩ | ⟨rfl, rfl⟩
  · by_cases hge : bs ≥ amt
    · simp [createTransferBody, encodeArithBinaryOp, execL, execStmt, execS,
        eval, balanceId, thisId, msgSenderId, msgValueId,
        hT, hS, hB, hA, hbt, hbs, hge, hne2, updEnv] at hexec
      refine ⟨hge, ?_⟩
      subst hexec
      refine ⟨fun j => if j = sA then Val.int (bs - amt)
                else if j = tA then Val.int (bt + amt) else bal j,
        ?_, ?_, ?_, ?_, ?_, ?_⟩
      · simp [updEnv, balanceId]
      · simp [hne]
      · simp
      · omega
      · intro k hk1 hk2
        simp [hk1, hk2]
      · intro n hn
        simp only [balanceId] at hn
        simp [updEnv, hn]
    · exfalso
      simp [createTransferBody, encodeArithBinaryOp, execL, execStmt, execS,
        eval, balanceId, thisId, msgSenderId, msgValueId,
        hT, hS, hB, hA, hbt, hbs, hge, hne2, updEnv] at hexec
  · have hthis : eval (.arrsel (.id "__balance") (.id "__this")) env
        = some (.int bt) := by simp [eval, hB, hT, hbt]
    have hamt : eval (.id "amount") env = some (.int amt) := by simp [eval, hA]
    simp [createTransferBody, getTCCforExpr, isBitPreciseType, getBits,
      isSigned, tp_uint256, balanceId, thisId, msgSenderId] at hexec
    rw [(mod_add_eval _ _ 256 false env bt amt hthis hamt).1,
        (mod_sub_eval (.arrsel (.id "__balance") (.id "__msg_sender")) _ 256 false env bs amt
          (by simp [eval, hB, hS, hbs]) hamt).1] at hexec
    simp only [execL] at hexec
    rcases Option.bind_eq_some.mp hexec with ⟨e1, h1, hx1⟩
    obtain ⟨hge, rfl⟩ := assume_step h1 (P := amt ≤ bs)
      (by simp [encodeArithBinaryOp, eval, hB, hS, hA, hbs])
    rcases Option.bind_eq_some.mp hx1 with ⟨e2, h2, hx2⟩
    obtain ⟨hp2, rfl⟩ := assume_step h2 (P := 0 ≤ bt ∧ bt ≤ (2:Int) ^ 256 - 1)
      (by simp [eval, hB, hT, hbt, Bool.decide_and])
    rcases Option.bind_eq_some.mp hx2 with ⟨e3, h3, hx3⟩
    obtain ⟨hp3, rfl⟩ := assume_step h3 (P := 0 ≤ amt ∧ amt ≤ (2:Int) ^ 256 - 1)
      (by simp [eval, hA, Bool.decide_and])
    rcases Option.bind_eq_some.mp hx3 with ⟨e4, h4, hx4⟩
    obtain rfl := comment_step h4
    have hadd2 := (mod_add_eval (.arrsel (.id "__balance") (.id "__this"))
      (.id "amount") 256 false env bt amt hthis hamt).2
    have hplus : eval (.plus (.arrsel (.id "__balance") (.id "__this")) (.id "amount")) env
        = some (.int (bt + amt)) := by simp [eval, hB, hT, hbt, hA]
    have hBev : eval (.id "__balance") env = some (.arr bal) := by simp [eval, hB]
    have hTev : eval (.id "__this") env = some (.int tA) := by simp [eval, hT]
    rcases Option.bind_eq_some.mp hx4 with ⟨e5, h5, hx5⟩
    obtain ⟨hp5, rfl⟩ := assume_step h5
      (P := bt + amt = addWrap 256 false bt amt)
      (eval_eq_int hplus hadd2)
    rcases Option.bind_eq_some.mp hx5 with ⟨e6, h6, hx6⟩
    have h6e := assign_step h6
      (v := Val.arr (fun j => if j = tA then Val.int (addWrap 256 false bt amt) else bal j))
      (eval_arrupd_of hBev hTev hadd2)
    subst h6e
    rcases Option.bind_eq_some.mp hx6 with ⟨e7, h7, hx7⟩
    obtain ⟨hp7, rfl⟩ := assume_step h7 (P := 0 ≤ bs ∧ bs ≤ (2:Int) ^ 256 - 1)
      (by simp [eval, updEnv, hS, hne2, hbs, Bool.decide_and])
    rcases Option.bind_eq_some.mp hx7 with ⟨e8, h8, hx8⟩
    obtain ⟨hp8, rfl⟩ := assume_step h8 (P := 0 ≤ amt ∧ amt ≤ (2:Int) ^ 256 - 1)
      (by simp [eval, updEnv, hA, Bool.decide_and])
    rcases Option.bind_eq_some.mp hx8 with ⟨e9, h9, hx9⟩
    obtain rfl := comment_step h9
    have hsend6 : eval (.arrsel (.id "__balance") (.id "__msg_sender"))
        (updEnv env "__balance"
          (Val.arr (fun j => if j = tA then Val.int (addWrap 256 false bt amt) else bal j)))
        = some (.int bs) := by
      simp [eval, updEnv, hS, hne2, hbs]
    have hamt6 : eval (.id "amount")
        (updEnv env "__balance"
          (Val.arr (fun j => if j = tA then Val.int (addWrap 256 false bt amt) else bal j)))
        = some (.int amt) := by
      simp [eval, updEnv, hA]
    have hsub2 := (mod_sub_eval (.arrsel (.id "__balance") (.id "__msg_sender"))
      (.id "amount") 256 false _ bs amt hsend6 hamt6).2
    have hminus6 : eval (.minus (.arrsel (.id "__balance") (.id "__msg_sender")) (.id "amount"))
        (updEnv env "__balance"
          (Val.arr (fun j => if j = tA then Val.int (addWrap 256 false bt amt) else bal j)))
        = some (.int (bs - amt)) := by simp [eval, updEnv, hS, hne2, hbs, hA]
    have hBev6 : eval (.id "__balance")
        (updEnv env "__balance"
          (Val.arr (fun j => if j = tA then Val.int (addWrap 256 false bt amt) else bal j)))
        = some (.arr (fun j => if j = tA then Val.int (addWrap 256 false bt amt) else bal j)) := by
      simp [eval, updEnv]
    have hSev6 : eval (.id "__msg_sender")
        (updEnv env "__balance"
          (Val.arr (fun j => if j = tA then Val.int (addWrap 256 false bt amt) else bal j)))
        = some (.int sA) := by simp [eval, updEnv, hS]
    rcases Option.bind_eq_some.mp hx9 with ⟨e10, h10, hx10⟩
    obtain ⟨hp10, rfl⟩ := assume_step h10
      (P := bs - amt = subWrap 256 false bs amt)
      (eval_eq_int hminus6 hsub2)
    rcases Option.bind_eq_some.mp hx10 with ⟨e11, h11, hx11⟩
    have h11e := assign_step h11
      (v := Val.arr (fun j => if j = sA then Val.int (subWrap 256 false bs amt)
              else if j = tA then Val.int (addWrap 256 false bt amt) else bal j))
      (eval_arrupd_of hBev6 hSev6 hsub2)
    subst h11e
    rcases Option.bind_eq_some.mp hx11 with ⟨e12, h12, hx12⟩
    obtain rfl := comment_step h12
    have henv2 : env2 = updEnv
        (updEnv env "__balance"
          (Val.arr (fun j => if j = tA then Val.int (addWrap 256 false bt amt) else bal j)))
        "__balance"
        (Val.arr (fun j => if j = sA then Val.int (subWrap 256 false bs amt)
            else if j = tA then Val.int (addWrap 256 false bt amt) else bal j)) :=
      (Option.some.inj hx12).symm
    refine ⟨hge, ?_⟩
    subst henv2
    refine ⟨fun j => if j = sA then Val.int (bs - amt)
              else if j = tA then Val.int (bt + amt) else bal j,
      ?_, ?_, ?_, ?_, ?_, ?_⟩
    · simp [updEnv, balanceId, ← hp5, ← hp10]
    · simp [hne]
    · simp
    · omega
    · intro k hk1 hk2
      simp [hk1, hk2]
    · intro n hn
      simp only [balanceId] at hn
      simp [updEnv, hn]

/-- Initial balance map for the witness of claim C2. -/
def wBal : Int → Val := fun k => if k = 0 then Val.int 10 else Val.int 60

/-- Initial environment for the witness of claim C2. -/
def wEnv : Env := fun n =>
  if n = "__balance" then Val.arr wBal
  else if n = "__this" then Val.int 0
  else if n = "__msg_sender" then Val.int 1
  else if n = "amount" then Val.int 50
  else Val.int 0

/-- Final environment for the witness of claim C2. -/
def wEnv2 : Env :=
  updEnv
    (updEnv wEnv "__balance"
      (Val.arr (fun k => if k = 0 then Val.int 60 else wBal k)))
    "__balance"
    (Val.arr (fun k => if k = 1 then Val.int 10
        else if k = 0 then Val.int 60 else wBal k))

/-- Witness for `transfer_updates_and_conservation`: a concrete transfer
of 50 from a sender holding 60 to a receiver holding 10, Mathematical
encoding. -/
theorem transfer_updates_and_conservation_witness :
    (60 : Int) ≥ 50 ∧
    ∃ bal2 : Int → Val, wEnv2 balanceId = .arr bal2 ∧
      bal2 0 = .int (10 + 50) ∧ bal2 1 = .int (60 - 50) ∧
      ((10 : Int) + 50) + (60 - 50) = 10 + 60 ∧
      (∀ k : Int, k ≠ 0 → k ≠ 1 → bal2 k = wBal k) ∧
      (∀ n : String, n ≠ balanceId → wEnv2 n = wEnv n) :=
  transfer_updates_and_conservation .INT false (Or.inl ⟨rfl, rfl⟩)
    wEnv 0 1 10 60 50 wBal wEnv2 rfl rfl (by decide) rfl rfl rfl rfl rfl


/-- Balance map for the Modular no-overflow-check call counterexample:
the receiving account holds the largest representable balance. -/
def cwBal : Int → Val := fun k => if k = 0 then Val.int (2 ^ 256 - 1) else Val.int 0

/-- Pre-state environment for the Modular no-overflow-check call
counterexample: the nondeterministic guard picks the success branch. -/
def cwEnv : Env := fun n =>
  if n = "*" then Val.bool true
  else if n = "__balance" then Val.arr cwBal
  else if n = "__this" then Val.int 0
  else if n = "__msg_value" then Val.int 50
  else Val.int 0

set_option maxRecDepth 8000 in
/-- Counterexample for claim C5 as stated: in Modular encoding without
overflow checking, the call body's success branch completes on a
pre-state with `balance[this] = 2^256 - 1` and `msg.value = 50` (the
type correctness conditions hold, and without overflow checking no
overflow condition is assumed), sets the result to true, yet leaves
`balance[this] = 49`, not `balance[this] + msg.value`: the success
branch does not credit msg.value in this configuration. -/
theorem call_mod_no_overflow_wrap_cex :
    ((execL (createCallBody .MOD false) cwEnv).bind
      (fun e => eval (.arrsel (.id balanceId) (.id thisId)) e)) = some (.int 49) ∧
    ((execL (createCallBody .MOD false) cwEnv).bind
      (fun e => eval (.id "__result") e)) = some (.bool true) ∧
    cwBal 0 = Val.int (2 ^ 256 - 1) ∧ cwEnv msgValueId = Val.int 50 ∧
    (49 : Int) ≠ (2 ^ 256 - 1) + 50 :=
  ⟨rfl, rfl, rfl, rfl, by decide⟩

set_option maxRecDepth 8000 in
/-- Claim C5 (amended): in the bodies synthesized for call and send, the
failure branch of the nondeterministic choice assigns false to the result
and leaves every other variable (the balance map included) unchanged in
every configuration, while the success branch sets the result to true
and performs exactly the advertised balance updates — call credits
msg.value to the balance of this; send, after assuming sender
sufficiency, moves amount from the balance of the sender to the balance
of this — in Mathematical encoding and in Modular encoding with the
overflow conditions assumed; in Modular encoding without overflow
checking the success branch instead updates the balances modulo 2^256,
which can violate the advertised updates (see the counterexample
above). -/
theorem call_send_branch_effects :
    (∀ (enc : Encoding) (ovf : Bool) (env env2 : Env),
      env "*" = .bool false →
      execL (createCallBody enc ovf) env = some env2 →
      env2 "__result" = .bool false ∧
      ∀ n : String, n ≠ "__result" → env2 n = env n) ∧
    (∀ (enc : Encoding) (ovf : Bool) (env env2 : Env)
      (sA bs amt : Int) (bal : Int → Val),
      (enc = .INT ∨ enc = .MOD) →
      env "*" = .bool false →
      env msgSenderId = .int sA → env balanceId = .arr bal →
      env "amount" = .int amt → bal sA = .int bs → bs ≥ amt →
      execL (createSendBody enc ovf) env = some env2 →
      env2 "__result" = .bool false ∧
      ∀ n : String, n ≠ "__result" → env2 n = env n) ∧
    (∀ (enc : Encoding) (ovf : Bool) (env env2 : Env)
      (tA v bt : Int) (bal : Int → Val),
      ((enc = .INT ∧ ovf = false) ∨ (enc = .MOD ∧ ovf = true)) →
      env "*" = .bool true →
      env thisId = .int tA → env balanceId = .arr bal →
      env msgValueId = .int v → bal tA = .int bt →
      execL (createCallBody enc ovf) env = some env2 →
      env2 "__result" = .bool true ∧
      (∃ bal2 : Int → Val, env2 balanceId = .arr bal2 ∧
        bal2 tA = .int (bt + v) ∧ ∀ k : Int, k ≠ tA → bal2 k = bal k) ∧
      (∀ n : String, n ≠ balanceId → n ≠ "__result" → env2 n = env n)) ∧
    (∀ (enc : Encoding) (ovf : Bool) (env env2 : Env)
      (tA sA bt bs amt : Int) (bal : Int → Val),
      ((enc = .INT ∧ ovf = false) ∨ (enc = .MOD ∧ ovf = true)) →
      env "*" = .bool true →
      env thisId = .int tA → env msgSenderId = .int sA → tA ≠ sA →
      env balanceId = .arr bal → env "amount" = .int amt →
      bal tA = .int bt → bal sA = .int bs →
      execL (createSendBody enc ovf) env = some env2 →
      bs ≥ amt ∧ env2 "__result" = .bool true ∧
      (∃ bal2 : Int → Val, env2 balanceId = .arr bal2 ∧
        bal2 tA = .int (bt + amt) ∧ bal2 sA = .int (bs - amt) ∧
        ∀ k : Int, k ≠ tA → k ≠ sA → bal2 k = bal k) ∧
      (∀ n : String, n ≠ balanceId → n ≠ "__result" → env2 n = env n)) := by
  refine ⟨?_, ?_, ?_, ?_⟩
  · intro enc ovf env env2 hstar hexec
    simp [createCallBody, execL, execStmt, execSL, execS, eval, hstar] at hexec
    subst hexec
    exact ⟨by simp [updEnv], fun n hn => by simp [updEnv, hn]⟩
  · intro enc ovf env env2 sA bs amt bal henc hstar hS hB hA hbs hge hexec
    simp only [balanceId, msgSenderId] at hS hB hA
    rcases henc with rfl | rfl <;>
    · simp [createSendBody, encodeArithBinaryOp, execL, execStmt, execSL, execS,
        eval, balanceId, msgSenderId, hstar, hS, hB, hA, hbs, hge] at hexec
      subst hexec
      exact ⟨by simp [updEnv], fun n hn => by simp [updEnv, hn]⟩
  · intro enc ovf env env2 tA v bt bal hmode hstar hT hB hV hbt hexec
    simp only [balanceId, thisId, msgValueId] at hT hB hV
    rcases hmode with ⟨rfl, rfl⟩ | ⟨rfl, rfl⟩
    · simp [createCallBody, encodeArithBinaryOp, execL, execStmt, execSL, execS,
        eval, balanceId, thisId, msgValueId, hstar, hT, hB, hV, hbt, updEnv] at hexec
      subst hexec
      refine ⟨by simp [updEnv], ⟨fun j => if j = tA then Val.int (bt + v) else bal j,
        ?_, by simp, ?_⟩, ?_⟩
      · simp [updEnv, balanceId]
      · intro k hk
        simp [hk]
      · intro n hn1 hn2
        simp only [balanceId] at hn1
        simp [updEnv, hn1, hn2]
    · have hthis : eval (.arrsel (.id "__balance") (.id "__this")) env
          = some (.int bt) := by simp [eval, hB, hT, hbt]
      have hval : eval (.id "__msg_value") env = some (.int v) := by simp [eval, hV]
      have hadd2 := (mod_add_eval (.arrsel (.id "__balance") (.id "__this"))
        (.id "__msg_value") 256 false env bt v hthis hval).2
      have hplus : eval (.plus (.arrsel (.id "__balance") (.id "__this")) (.id "__msg_value")) env
          = some (.int (bt + v)) := by simp [eval, hB, hT, hbt, hV]
      have hBev : eval (.id "__balance") env = some (.arr bal) := by simp [eval, hB]
      have hTev : eval (.id "__this") env = some (.int tA) := by simp [eval, hT]
      simp [createCallBody, getTCCforExpr, isBitPreciseType, getBits,
        isSigned, tp_uint256, balanceId, thisId, msgValueId] at hexec
      rw [(mod_add_eval _ _ 256 false env bt v hthis hval).1] at hexec
      simp only [execL] at hexec
      rcases Option.bind_eq_some.mp hexec with ⟨e1, h1, hx1⟩
      obtain rfl := comment_step h1
      rcases Option.bind_eq_some.mp hx1 with ⟨e2, h2, hx2⟩
      have hSL := ifelse_true_step h2 (by simp [eval, hstar])
      simp only [execSL] at hSL
      rcases Option.bind_eq_some.mp hSL with ⟨f1, g1, hy1⟩
      obtain ⟨hq1, rfl⟩ := assumeS_step g1 (P := 0 ≤ bt ∧ bt ≤ (2:Int) ^ 256 - 1)
        (by simp [eval, hB, hT, hbt, Bool.decide_and])
      rcases Option.bind_eq_some.mp hy1 with ⟨f2, g2, hy2⟩
      obtain ⟨hq2, rfl⟩ := assumeS_step g2 (P := 0 ≤ v ∧ v ≤ (2:Int) ^ 256 - 1)
        (by simp [eval, hV, Bool.decide_and])
      rcases Option.bind_eq_some.mp hy2 with ⟨f3, g3, hy3⟩
      obtain rfl := commentS_step g3
      rcases Option.bind_eq_some.mp hy3 with ⟨f4, g4, hy4⟩
      obtain ⟨hq4, rfl⟩ := assumeS_step g4
        (P := bt + v = addWrap 256 false bt v)
        (eval_eq_int hplus hadd2)
      rcases Option.bind_eq_some.mp hy4 with ⟨f5, g5, hy5⟩
      have g5e := assignS_step g5
        (v := Val.arr (fun j => if j = tA then Val.int (addWrap 256 false bt v) else bal j))
        (eval_arrupd_of hBev hTev hadd2)
      subst g5e
      rcases Option.bind_eq_some.mp hy5 with ⟨f6, g6, hy6⟩
      have g6e := assignS_step g6 (v := Val.bool true) (by simp [eval])
      subst g6e
      have henv2 : env2 = updEnv
          (updEnv env "__balance"
            (Val.arr (fun j => if j = tA then Val.int (addWrap 256 false bt v) else bal j)))
          "__result" (Val.bool true) :=
        (Option.some.inj (hy6.trans hx2)).symm
      subst henv2
      refine ⟨by simp [updEnv], ⟨fun j => if j = tA then Val.int (bt + v) else bal j,
        ?_, by simp, ?_⟩, ?_⟩
      · simp [updEnv, balanceId, ← hq4]
      · intro k hk
        simp [hk]
      · intro n hn1 hn2
        simp only [balanceId] at hn1
        simp [updEnv, hn1, hn2]
  · intro enc ovf env env2 tA sA bt bs amt bal hmode hstar hT hS hne hB hA hbt hbs hexec
    have hne2 : sA ≠ tA := Ne.symm hne
    simp only [balanceId, thisId, msgSenderId] at hT hS hB hA
    rcases hmode with ⟨rfl, rfl⟩ | ⟨rfl, rfl⟩
    · by_cases hge : bs ≥ amt
      · simp [createSendBody, encodeArithBinaryOp, execL, execStmt, execSL, execS,
          eval, balanceId, thisId, msgSenderId, hstar,
          hT, hS, hB, hA, hbt, hbs, hge, hne2, updEnv] at hexec
        subst hexec
        refine ⟨hge, by simp [updEnv], ⟨fun j => if j = sA then Val.int (bs - amt)
          else if j = tA then Val.int (bt + amt) else bal j, ?_, ?_, ?_, ?_⟩, ?_⟩
        · simp [updEnv, balanceId]
        · simp [hne]
        · simp
        · intro k hk1 hk2
          simp [hk1, hk2]
        · intro n hn1 hn2
          simp only [balanceId] at hn1
          simp [updEnv, hn1, hn2]
      · exfalso
        simp [createSendBody, encodeArithBinaryOp, execL, execStmt, execSL, execS,
          eval, balanceId, thisId, msgSenderId, hstar,
          hT, hS, hB, hA, hbt, hbs, hge, hne2, updEnv] at hexec
    · have hthis : eval (.arrsel (.id "__balance") (.id "__this")) env
          = some (.int bt) := by simp [eval, hB, hT, hbt]
      have hamt : eval (.id "amount") env = some (.int amt) := by simp [eval, hA]
      have hadd2 := (mod_add_eval (.arrsel (.id "__balance") (.id "__this"))
        (.id "amount") 256 false env bt amt hthis hamt).2
      have hplus : eval (.plus (.arrsel (.id "__balance") (.id "__this")) (.id "amount")) env
          = some (.int (bt + amt)) := by simp [eval, hB, hT, hbt, hA]
      have hBev : eval (.id "__balance") env = some (.arr bal) := by simp [eval, hB]
      have hTev : eval (.id "__this") env = some (.int tA) := by simp [eval, hT]
      simp [createSendBody, getTCCforExpr, isBitPreciseType, getBits,
        isSigned, tp_uint256, balanceId, thisId, msgSenderId] at hexec
      rw [(mod_add_eval _ _ 256 false env bt amt hthis hamt).1,
          (mod_sub_eval (.arrsel (.id "__balance") (.id "__msg_sender")) _ 256 false env bs amt
            (by simp [eval, hB, hS, hbs]) hamt).1] at hexec
      simp only [execL] at hexec
      rcases Option.bind_eq_some.mp hexec with ⟨e1, h1, hx1⟩
      obtain ⟨hge, rfl⟩ := assume_step h1 (P := amt ≤ bs)
        (by simp [encodeArithBinaryOp, eval, hB, hS, hA, hbs])
      rcases Option.bind_eq_some.mp hx1 with ⟨e2, h2, hx2⟩
      obtain rfl := comment_step h2
      rcases Option.bind_eq_some.mp hx2 with ⟨e3, h3, hx3⟩
      have hSL := ifelse_true_step h3 (by simp [eval, hstar])
      simp only [execSL] at hSL
      rcases Option.bind_eq_some.mp hSL with ⟨f1, g1, hy1⟩
      obtain ⟨hq1, rfl⟩ := assumeS_step g1 (P := 0 ≤ bt ∧ bt ≤ (2:Int) ^ 256 - 1)
        (by simp [eval, hB, hT, hbt, Bool.decide_and])
      rcases Option.bind_eq_some.mp hy1 with ⟨f2, g2, hy2⟩
      obtain ⟨hq2, rfl⟩ := assumeS_step g2 (P := 0 ≤ amt ∧ amt ≤ (2:Int) ^ 256 - 1)
        (by simp [eval, hA, Bool.decide_and])
      rcases Option.bind_eq_some.mp hy2 with ⟨f3, g3, hy3⟩
      obtain rfl := commentS_step g3
      rcases Option.bind_eq_some.mp hy3 with ⟨f4, g4, hy4⟩
      obtain ⟨hq4, rfl⟩ := assumeS_step g4
        (P := bt + amt = addWrap 256 false bt amt)
        (eval_eq_int hplus hadd2)
      rcases Option.bind_eq_some.mp hy4 with ⟨f5, g5, hy5⟩
      have g5e := assignS_step g5
        (v := Val.arr (fun j => if j = tA then Val.int (addWrap 256 false bt amt) else bal j))
        (eval_arrupd_of hBev hTev hadd2)
      subst g5e
      have hsend6 : eval (.arrsel (.id "__balance") (.id "__msg_sender"))
          (updEnv env "__balance"
            (Val.arr (fun j => if j = tA then Val.int (addWrap 256 false bt amt) else bal j)))
          = some (.int bs) := by
        simp [eval, updEnv, hS, hne2, hbs]
      have hamt6 : eval (.id "amount")
          (updEnv env "__balance"
            (Val.arr (fun j => if j = tA then Val.int (addWrap 256 false bt amt) else bal j)))
          = some (.int amt) := by
        simp [eval, updEnv, hA]
      have hsub2 := (mod_sub_eval (.arrsel (.id "__balance") (.id "__msg_sender"))
        (.id "amount") 256 false _ bs amt hsend6 hamt6).2
      have hminus6 : eval (.minus (.arrsel (.id "__balance") (.id "__msg_sender")) (.id "amount"))
          (updEnv env "__balance"
            (Val.arr (fun j => if j = tA then Val.int (addWrap 256 false bt amt) else bal j)))
          = some (.int (bs - amt)) := by simp [eval, updEnv, hS, hne2, hbs, hA]
      have hBev6 : eval (.id "__balance")
          (updEnv env "__balance"
            (Val.arr (fun j => if j = tA then Val.int (addWrap 256 false bt amt) else bal j)))
          = some (.arr (fun j => if j = tA then Val.int (addWrap 256 false bt amt) else bal j)) := by
        simp [eval, updEnv]
      have hSev6 : eval (.id "__msg_sender")
          (updEnv env "__balance"
            (Val.arr (fun j => if j = tA then Val.int (addWrap 256 false bt amt) else bal j)))
          = some (.int sA) := by simp [eval, updEnv, hS]
      rcases Option.bind_eq_some.mp hy5 with ⟨f6, g6, hy6⟩
      obtain ⟨hq6, rfl⟩ := assumeS_step g6 (P := 0 ≤ bs ∧ bs ≤ (2:Int) ^ 256 - 1)
        (by simp [eval, updEnv, hS, hne2, hbs, Bool.decide_and])
      rcases Option.bind_eq_some.mp hy6 with ⟨f7, g7, hy7⟩
      obtain ⟨hq7, rfl⟩ := assumeS_step g7 (P := 0 ≤ amt ∧ amt ≤ (2:Int) ^ 256 - 1)
        (by simp [eval, updEnv, hA, Bool.decide_and])
      rcases Option.bind_eq_some.mp hy7 with ⟨f8, g8, hy8⟩
      obtain rfl := commentS_step g8
      rcases Option.bind_eq_some.mp hy8 with ⟨f9, g9, hy9⟩
      obtain ⟨hq9, rfl⟩ := assumeS_step g9
        (P := bs - amt = subWrap 256 false bs amt)
        (eval_eq_int hminus6 hsub2)
      rcases Option.bind_eq_some.mp hy9 with ⟨f10, g10, hy10⟩
      have g10e := assignS_step g10
        (v := Val.arr (fun j => if j = sA then Val.int (subWrap 256 false bs amt)
                else if j = tA then Val.int (addWrap 256 false bt amt) else bal j))
        (eval_arrupd_of hBev6 hSev6 hsub2)
      subst g10e
      rcases Option.bind_eq_some.mp hy10 with ⟨f11, g11, hy11⟩
      have g11e := assignS_step g11 (v := Val.bool true) (by simp [eval])
      subst g11e
      have henv2 : env2 = updEnv
          (updEnv
            (updEnv env "__balance"
              (Val.arr (fun j => if j = tA then Val.int (addWrap 256 false bt amt) else bal j)))
            "__balance"
            (Val.arr (fun j => if j = sA then Val.int (subWrap 256 false bs amt)
                else if j = tA then Val.int (addWrap 256 false bt amt) else bal j)))
          "__result" (Val.bool true) :=
        (Option.some.inj (hy11.trans hx3)).symm
      subst henv2
      refine ⟨hge, by simp [updEnv], ⟨fun j => if j = sA then Val.int (bs - amt)
        else if j = tA then Val.int (bt + amt) else bal j, ?_, ?_, ?_, ?_⟩, ?_⟩
      · simp [updEnv, balanceId, ← hq4, ← hq9]
      · simp [hne]
      · simp
      · intro k hk1 hk2
        simp [hk1, hk2]
      · intro n hn1 hn2
        simp only [balanceId] at hn1
        simp [updEnv, hn1, hn2]


/-- Pre-state environment for the call failure-branch witness. -/
def cfEnv : Env := fun n => if n = "*" then Val.bool false else Val.int 0

/-- Post-state environment for the call failure-branch witness. -/
def cfEnv2 : Env := updEnv cfEnv "__result" (Val.bool false)

/-- Balance map for the send failure-branch witness. -/
def sfBal : Int → Val := fun _ => Val.int 60

/-- Pre-state environment for the send failure-branch witness. -/
def sfEnv : Env := fun n =>
  if n = "*" then Val.bool false
  else if n = "__balance" then Val.arr sfBal
  else if n = "__msg_sender" then Val.int 1
  else if n = "amount" then Val.int 50
  else Val.int 0

/-- Post-state environment for the send failure-branch witness. -/
def sfEnv2 : Env := updEnv sfEnv "__result" (Val.bool false)

/-- Balance map for the call success-branch witness. -/
def csBal : Int → Val := fun _ => Val.int 10

/-- Pre-state environment for the call success-branch witness. -/
def csEnv : Env := fun n =>
  if n = "*" then Val.bool true
  else if n = "__balance" then Val.arr csBal
  else if n = "__this" then Val.int 0
  else if n = "__msg_value" then Val.int 7
  else Val.int 0

/-- Post-state environment for the call success-branch witness. -/
def csEnv2 : Env :=
  updEnv (updEnv csEnv "__balance"
      (Val.arr (fun j => if j = 0 then Val.int 17 else csBal j)))
    "__result" (Val.bool true)

/-- Balance map for the send success-branch witness. -/
def ssBal : Int → Val := fun k => if k = 0 then Val.int 10 else Val.int 60

/-- Pre-state environment for the send success-branch witness. -/
def ssEnv : Env := fun n =>
  if n = "*" then Val.bool true
  else if n = "__balance" then Val.arr ssBal
  else if n = "__this" then Val.int 0
  else if n = "__msg_sender" then Val.int 1
  else if n = "amount" then Val.int 50
  else Val.int 0

/-- Post-state environment for the send success-branch witness. -/
def ssEnv2 : Env :=
  updEnv (updEnv (updEnv ssEnv "__balance"
        (Val.arr (fun k => if k = 0 then Val.int 60 else ssBal k)))
      "__balance"
      (Val.arr (fun k => if k = 1 then Val.int 10
          else if k = 0 then Val.int 60 else ssBal k)))
    "__result" (Val.bool true)

set_option maxRecDepth 8000 in
/-- Witness for `call_send_branch_effects`: concrete executions of the
four branches in Mathematical encoding — a failed call, a failed send, a
call crediting 7 to a balance of 10, and a send moving 50 from a balance
of 60 to a balance of 10. -/
theorem call_send_branch_effects_witness :
    (cfEnv2 "__result" = .bool false ∧
      ∀ n : String, n ≠ "__result" → cfEnv2 n = cfEnv n) ∧
    (sfEnv2 "__result" = .bool false ∧
      ∀ n : String, n ≠ "__result" → sfEnv2 n = sfEnv n) ∧
    (csEnv2 "__result" = .bool true ∧
      (∃ bal2 : Int → Val, csEnv2 balanceId = .arr bal2 ∧
        bal2 0 = .int (10 + 7) ∧ ∀ k : Int, k ≠ 0 → bal2 k = csBal k) ∧
      (∀ n : String, n ≠ balanceId → n ≠ "__result" → csEnv2 n = csEnv n)) ∧
    ((60 : Int) ≥ 50 ∧ ssEnv2 "__result" = .bool true ∧
      (∃ bal2 : Int → Val, ssEnv2 balanceId = .arr bal2 ∧
        bal2 0 = .int (10 + 50) ∧ bal2 1 = .int (60 - 50) ∧
        ∀ k : Int, k ≠ 0 → k ≠ 1 → bal2 k = ssBal k) ∧
      (∀ n : String, n ≠ balanceId → n ≠ "__result" → ssEnv2 n = ssEnv n)) :=
  ⟨call_send_branch_effects.1 .INT false cfEnv cfEnv2 rfl rfl,
   call_send_branch_effects.2.1 .INT false sfEnv sfEnv2 1 60 50 sfBal (Or.inl rfl)
     rfl rfl rfl rfl rfl (by decide) rfl,
   call_send_branch_effects.2.2.1 .INT false csEnv csEnv2 0 7 10 csBal
     (Or.inl ⟨rfl, rfl⟩) rfl rfl rfl rfl rfl rfl,
   call_send_branch_effects.2.2.2 .INT false ssEnv ssEnv2 0 1 10 60 50 ssBal
     (Or.inl ⟨rfl, rfl⟩) rfl rfl rfl (by decide) rfl rfl rfl rfl rfl⟩

end ASTBoogieUtils
